import Mathlib

set_option synthInstance.maxSize 4000
set_option maxRecDepth 8000

/-!
Shallow embedding of the Sudoku game core from `src/screens/SudokuScreen.tsx`.

A 9×9 numeric grid is a `List (List Nat)` (0 = empty cell); cell access via
`getCell`/`setCell` mirrors `board[row][col]` reads and in-place writes.  The
backtracking solver (`isValid`, `findBestCell`, `solveFuel`) is translated
from the source; the in-place mutation of the JS code becomes explicit state
passing (each call returns the final grid alongside its boolean result), and
the recursion is driven by a fuel parameter (the source recursion consumes
one empty cell per level, so fuel 82 is always enough; this is proved below).
The session state machine (`GameState`, `startGame`, `handleNumberInput`,
`checkWin`, selection movement) is translated from the React component, with
the component's `useState` fields gathered into a `GameState` record and the
thrown loader error modelled by `Except`.
-/

abbrev Grid := List (List Nat)

def getCell (g : Grid) (r c : Nat) : Nat := (g.getD r []).getD c 0

def setCell (g : Grid) (r c v : Nat) : Grid := g.set r ((g.getD r []).set c v)

/-- Translation of `isValid(board, row, col, num)`: `num` clashes with no cell
in the same row, the same column, or the 3×3 box containing `(row, col)`. -/
def isValid (board : Grid) (row col num : Nat) : Bool :=
  ((List.range 9).all fun i =>
    !(getCell board row i == num) && !(getCell board i col == num)) &&
  ((List.range 3).all fun i => (List.range 3).all fun j =>
    !(getCell board (3 * (row / 3) + i) (3 * (col / 3) + j) == num))

/-- Count of candidates `1..9` that are valid placements at `(r, c)`; the
inner counting loop of `findBestCell`. -/
def candCount (board : Grid) (r c : Nat) : Nat :=
  (List.range 9).countP fun n => isValid board r c (n + 1)

/-- One step of the `findBestCell` scan: the accumulator holds the best cell
found so far together with its candidate count (`none, 10` plays the role of
`bestRow = -1, minPossibilities = 10`). -/
def fbStep (board : Grid) (acc : Option (Nat × Nat) × Nat) (i : Nat) :
    Option (Nat × Nat) × Nat :=
  let r := i / 9
  let c := i % 9
  if getCell board r c == 0 then
    let count := candCount board r c
    if count < acc.2 then (some (r, c), count) else acc
  else acc

/-- Translation of `findBestCell(board)`: scan all cells in row-major order
and keep the empty cell with the strictly smallest candidate count. -/
def findBestCell (board : Grid) : Option (Nat × Nat) :=
  ((List.range 81).foldl (fbStep board) (none, 10)).1

/-- The candidate loop of `solve`: try each `n` from the list in order; on a
valid placement set the cell, run the solver (passed in as `slv`), and on
failure revert the cell to `0` and continue with the next candidate. -/
def tryNums (slv : Grid → Bool × Grid) (r c : Nat) :
    Grid → List Nat → Bool × Grid
  | board, [] => (false, board)
  | board, n :: rest =>
    if isValid board r c n then
      match slv (setCell board r c n) with
      | (true, board2) => (true, board2)
      | (false, board2) => tryNums slv r c (setCell board2 r c 0) rest
    else tryNums slv r c board rest

/-- Translation of `solve(board)`: pick the most constrained empty cell and
backtrack over its candidates in ascending order.  The fuel argument bounds
the recursion depth; each recursive call fills one empty cell, so any fuel
larger than the number of empty cells gives the source behaviour. -/
def solveFuel : Nat → Grid → Bool × Grid
  | 0, board => (false, board)
  | fuel + 1, board =>
    match findBestCell board with
    | none => (true, board)
    | some (r, c) =>
      tryNums (fun b => solveFuel fuel b) r c board [1, 2, 3, 4, 5, 6, 7, 8, 9]

def solve (board : Grid) : Bool × Grid := solveFuel 82 board

/-- Character decoding used by `generatePuzzle`: `'.'` is an empty cell and a
digit character its numeric value (`parseInt(char, 10)`). -/
def charToCellNum (ch : Char) : Nat := if ch = '.' then 0 else ch.toNat - 48

/-- The numeric `solutionBoard` built from the 81-character definition before
solving: row-major, index `i` at row `i / 9`, column `i % 9`. -/
def parseGrid (s : List Char) : Grid :=
  (List.range 9).map fun r => (List.range 9).map fun c =>
    charToCellNum (s.getD (9 * r + c) '.')

inductive Difficulty
  | easy
  | medium
  | hard
deriving DecidableEq

inductive GameStatus
  | menu
  | playing
  | solved
deriving DecidableEq

structure Cell where
  value : Option Nat
  isGiven : Bool
  isInvalid : Bool
deriving DecidableEq

abbrev Board := List (List Cell)

def emptyCell : Cell := { value := none, isGiven := false, isInvalid := false }

def getBCell (b : Board) (r c : Nat) : Cell := (b.getD r []).getD c emptyCell

def setBCell (b : Board) (r c : Nat) (cell : Cell) : Board :=
  b.set r ((b.getD r []).set c cell)

def easyPuzzle : String :=
  "..3.2.6..9..3.5..1..18.64....81.29..7.......8..67.82....26.95..8..2.3..9..5.1.3.."

def mediumPuzzle : String :=
  "2...8.3...6..7..84.3.5..2.9...1.54.8.........4.27.6...3.1..7.4.72..4..6...4.1...3"

def hardPuzzle : String :=
  "85...24..72......9..4.........1.7..23.5...9...4...........8..7..17..........36.4."

def PUZZLES : Difficulty → String
  | Difficulty.easy => easyPuzzle
  | Difficulty.medium => mediumPuzzle
  | Difficulty.hard => hardPuzzle

/-- The `puzzleBoard` built from the definition string: `'.'` gives an empty
cell, a digit a given cell with that value and `isInvalid = false`. -/
def mkPuzzleBoard (s : List Char) : Board :=
  (List.range 9).map fun r => (List.range 9).map fun c =>
    let ch := s.getD (9 * r + c) '.'
    if ch = '.' then emptyCell
    else { value := some (charToCellNum ch), isGiven := true, isInvalid := false }

/-- Translation of `generatePuzzle` generalised over the definition string:
parse the numeric grid, run the solver, and either return the puzzle board
with the solved grid or fail (the thrown `Error` becomes `Except.error`). -/
def generatePuzzleStr (s : List Char) : Except String (Board × Grid) :=
  match solve (parseGrid s) with
  | (true, solved) => Except.ok (mkPuzzleBoard s, solved)
  | (false, _) => Except.error "Failed to solve puzzle"

def generatePuzzle (d : Difficulty) : Except String (Board × Grid) :=
  generatePuzzleStr (PUZZLES d).toList

/-- The component state: the `useState` fields of `SudokuScreen`. -/
structure GameState where
  status : GameStatus
  difficulty : Difficulty
  board : Option Board
  solution : Option Grid
  selectedCell : Option (Nat × Nat)
  timer : Nat
  errors : Nat
deriving DecidableEq

def initialState : GameState :=
  { status := GameStatus.menu, difficulty := Difficulty.medium, board := none,
    solution := none, selectedCell := none, timer := 0, errors := 0 }

/-- Translation of `startGame` generalised over the definition string: on
loader success install the fresh board and solution and reset the session;
on loader failure (the `catch` branch) set the status back to `menu`. -/
def startGameStr (s : List Char) (d : Difficulty) (st : GameState) : GameState :=
  match generatePuzzleStr s with
  | Except.ok (puzzle, sol) =>
    { st with difficulty := d, board := some puzzle, solution := some sol,
              selectedCell := none, errors := 0, timer := 0,
              status := GameStatus.playing }
  | Except.error _ => { st with status := GameStatus.menu }

def startGame (d : Difficulty) (st : GameState) : GameState :=
  startGameStr (PUZZLES d).toList d st

/-- Translation of `checkWin(currentBoard)`: every cell holds a non-null
value equal to the corresponding solution entry. -/
def checkWinG (sol : Grid) (currentBoard : Board) : Bool :=
  (List.range 9).all fun r => (List.range 9).all fun c =>
    !((getBCell currentBoard r c).value == none) &&
    ((getBCell currentBoard r c).value == some (getCell sol r c))

/-- Mismatch test of `handleNumberInput`: `solution && solution[row][col] !== num`
(a null solution falls through to the `else` branch). -/
def solutionMismatch (sol? : Option Grid) (row col num : Nat) : Bool :=
  match sol? with
  | some sol => !(getCell sol row col == num)
  | none => false

/-- Translation of `findIndex` on `board.flat()` restricted to the predicate
used by the auto-select branch: first flat index of an empty non-given cell. -/
def findFirstIdx (p : Cell → Bool) : List Cell → Option Nat
  | [] => none
  | x :: xs => if p x then some 0 else (findFirstIdx p xs).map (· + 1)

def firstEmptyIdx (b : Board) : Option Nat :=
  findFirstIdx (fun c => c.value == none && !c.isGiven) b.flatten

/-- Translation of `handleNumberInput(num)`: `num = none` is the erase
action.  The no-selection branch auto-selects the first empty non-given
cell and applies the value to it (the `setTimeout` body, run here
synchronously); the selected branch is a no-op on given cells, otherwise it
writes the value, recomputes `isInvalid` against the solution, bumps the
error count on a fresh mismatch, and runs the win check. -/
def handleNumberInput (num : Option Nat) (st : GameState) : GameState :=
  if st.status ≠ GameStatus.playing then st else
  match st.board with
  | none => st
  | some board =>
    match st.selectedCell with
    | none =>
      match num with
      | none => st
      | some d =>
        match firstEmptyIdx board with
        | none => st
        | some i =>
          let row := i / 9
          let col := i % 9
          let cell := getBCell board row col
          let mismatch := solutionMismatch st.solution row col d
          let newCell := { cell with value := some d, isInvalid := mismatch }
          let newBoard := setBCell board row col newCell
          let newErrors := if mismatch then st.errors + 1 else st.errors
          let st' := { st with board := some newBoard, errors := newErrors,
                               selectedCell := some (row, col) }
          if checkWinG (st.solution.getD []) newBoard then
            { st' with status := GameStatus.solved }
          else st'
    | some (row, col) =>
      if (getBCell board row col).isGiven then st else
      let cell := getBCell board row col
      match num with
      | none =>
        let newBoard :=
          setBCell board row col { cell with value := none, isInvalid := false }
        let st' := { st with board := some newBoard }
        if checkWinG (st.solution.getD []) newBoard then
          { st' with status := GameStatus.solved }
        else st'
      | some d =>
        let wasInvalid := cell.isInvalid
        let mismatch := solutionMismatch st.solution row col d
        let newCell := { cell with value := some d, isInvalid := mismatch }
        let newBoard := setBCell board row col newCell
        let newErrors :=
          if mismatch && !wasInvalid then st.errors + 1 else st.errors
        let st' := { st with board := some newBoard, errors := newErrors }
        if checkWinG (st.solution.getD []) newBoard then
          { st' with status := GameStatus.solved }
        else st'

/-- Cell click from the rendered grid: `setSelectedCell` with the clicked
row/column. -/
def selectCell (p : Nat × Nat) (st : GameState) : GameState :=
  { st with selectedCell := some p }

inductive ArrowKey
  | up
  | down
  | left
  | right
deriving DecidableEq

/-- Arrow-key part of `handleKeyDown`: move the selection, clamped to the
grid (`Math.max(0, ...)` / `Math.min(8, ...)`); active only while playing
with a selection. -/
def moveSelection (k : ArrowKey) (st : GameState) : GameState :=
  if st.status ≠ GameStatus.playing then st else
  match st.selectedCell with
  | none => st
  | some (row, col) =>
    let rc : Nat × Nat :=
      match k with
      | ArrowKey.up => (row - 1, col)
      | ArrowKey.down => (min 8 (row + 1), col)
      | ArrowKey.left => (row, col - 1)
      | ArrowKey.right => (row, min 8 (col + 1))
    { st with selectedCell := some rc }

/-- The "Change Difficulty" button: `setStatus('menu')`. -/
def returnToMenu (st : GameState) : GameState :=
  { st with status := GameStatus.menu }

/-- A timer tick: the interval callback increments `timer` while playing. -/
def tickTimer (st : GameState) : GameState :=
  if st.status = GameStatus.playing then { st with timer := st.timer + 1 } else st

/-!
Basic algebra of `getCell`/`setCell` on well-formed (9×9) grids.
-/

def WF (g : Grid) : Prop := g.length = 9 ∧ ∀ row ∈ g, row.length = 9

instance : DecidablePred WF := fun g => by
  unfold WF; infer_instance

theorem WF_rowLen {g : Grid} (h : WF g) {r : Nat} (hr : r < 9) :
    (g.getD r []).length = 9 := by
  have hlt : r < g.length := h.1 ▸ hr
  have hrow : g.getD r [] = g[r] := by
    simp [List.getD_eq_getElem?_getD, List.getElem?_eq_getElem hlt]
  rw [hrow]
  exact h.2 _ (List.getElem_mem hlt)

theorem getD_set_self_list {α : Type} (l : List α) {i : Nat} (h : i < l.length)
    (x : α) (d : α) : (l.set i x).getD i d = x := by
  rw [List.getD_eq_getElem?_getD, List.getElem?_set_self h, Option.getD_some]

theorem getD_set_ne_list {α : Type} (l : List α) {i j : Nat} (h : i ≠ j)
    (x : α) (d : α) : (l.set i x).getD j d = l.getD j d := by
  rw [List.getD_eq_getElem?_getD, List.getElem?_set_ne h,
    ← List.getD_eq_getElem?_getD]

theorem getCell_setCell_self {g : Grid} (h : WF g) {r c : Nat}
    (hr : r < 9) (hc : c < 9) {v : Nat} :
    getCell (setCell g r c v) r c = v := by
  have hrl : r < g.length := h.1 ▸ hr
  have hcl : c < (g.getD r []).length := by rw [WF_rowLen h hr]; exact hc
  unfold getCell setCell
  rw [getD_set_self_list g hrl, getD_set_self_list _ hcl]

theorem getCell_setCell_of_ne {g : Grid} {r c r' c' : Nat}
    (hne : r ≠ r' ∨ c ≠ c') {v : Nat} :
    getCell (setCell g r c v) r' c' = getCell g r' c' := by
  unfold getCell setCell
  by_cases hrr : r = r'
  · subst hrr
    have hcc : c ≠ c' := hne.resolve_left (fun hh => hh rfl)
    by_cases hlt : r < g.length
    · rw [getD_set_self_list g hlt, getD_set_ne_list _ hcc]
    · rw [List.set_eq_of_length_le (Nat.le_of_not_lt hlt)]
  · rw [getD_set_ne_list g hrr]

theorem WF_setCell {g : Grid} (h : WF g) (r c v : Nat) : WF (setCell g r c v) := by
  by_cases hr : r < 9
  · constructor
    · simp [setCell, h.1]
    · intro row hrow
      simp only [setCell] at hrow
      rcases List.mem_or_eq_of_mem_set hrow with hmem | heq
      · exact h.2 _ hmem
      · subst heq
        simp only [List.length_set]
        exact WF_rowLen h hr
  · have hle : g.length ≤ r := by rw [h.1]; omega
    unfold setCell
    rw [List.set_eq_of_length_le hle]
    exact h

theorem setCell_setCell {g : Grid} (h : WF g) {r c : Nat}
    (hr : r < 9) (hc : c < 9) (v w : Nat) :
    setCell (setCell g r c v) r c w = setCell g r c w := by
  have hrl : r < g.length := h.1 ▸ hr
  unfold setCell
  rw [getD_set_self_list g hrl]
  simp only [List.set_set]

theorem setCell_cancel {g : Grid} (h : WF g) {r c v : Nat}
    (hr : r < 9) (hc : c < 9) (hv : getCell g r c = v) :
    setCell g r c v = g := by
  have hrl : r < g.length := h.1 ▸ hr
  have hcl : c < (g.getD r []).length := by rw [WF_rowLen h hr]; exact hc
  have hv' : (g.getD r [])[c] = v := by
    have h2 := hv
    unfold getCell at h2
    rw [List.getD_eq_getElem?_getD, List.getElem?_eq_getElem hcl,
      Option.getD_some] at h2
    exact h2
  have hrow : (g.getD r []).set c v = g.getD r [] := by
    apply List.ext_getElem?
    intro j
    rw [List.getElem?_set]
    by_cases hj : c = j
    · subst hj
      rw [if_pos rfl, if_pos hcl, List.getElem?_eq_getElem hcl, hv']
    · rw [if_neg hj]
  unfold setCell
  rw [hrow]
  apply List.ext_getElem?
  intro j
  rw [List.getElem?_set]
  by_cases hj : r = j
  · subst hj
    rw [if_pos rfl, if_pos hrl, List.getElem?_eq_getElem hrl]
    have hg : g.getD r [] = g[r] := by
      simp [List.getD_eq_getElem?_getD, List.getElem?_eq_getElem hrl]
    rw [hg]
  · rw [if_neg hj]

/-!
Counting empty cells, and the characterisation of the `findBestCell` scan:
it returns the row-major-first empty cell of minimal candidate count.
-/

def emptyCount (g : Grid) : Nat :=
  ((Finset.range 81).filter fun i => getCell g (i / 9) (i % 9) = 0).card

theorem emptyCount_le (g : Grid) : emptyCount g ≤ 81 := by
  unfold emptyCount
  exact (Finset.card_filter_le _ _).trans (by simp)

theorem emptyCount_setCell {g : Grid} (h : WF g) {r c v : Nat} (hr : r < 9)
    (hc : c < 9) (h0 : getCell g r c = 0) (hv : v ≠ 0) :
    emptyCount (setCell g r c v) + 1 = emptyCount g := by
  unfold emptyCount
  have key : ((Finset.range 81).filter fun i =>
        getCell (setCell g r c v) (i / 9) (i % 9) = 0)
      = (((Finset.range 81).filter fun i =>
        getCell g (i / 9) (i % 9) = 0).erase (9 * r + c)) := by
    ext i
    simp only [Finset.mem_filter, Finset.mem_erase, Finset.mem_range]
    constructor
    · rintro ⟨hi, hcell⟩
      by_cases hieq : i = 9 * r + c
      · exfalso
        subst hieq
        rw [(by omega : (9 * r + c) / 9 = r), (by omega : (9 * r + c) % 9 = c),
          getCell_setCell_self h hr hc] at hcell
        exact hv hcell
      · refine ⟨hieq, hi, ?_⟩
        rwa [getCell_setCell_of_ne (by omega)] at hcell
    · rintro ⟨hne, hi, hcell⟩
      refine ⟨hi, ?_⟩
      rwa [getCell_setCell_of_ne (by omega)]
  rw [key]
  apply Finset.card_erase_add_one
  simp only [Finset.mem_filter, Finset.mem_range]
  constructor
  · omega
  · rw [(by omega : (9 * r + c) / 9 = r), (by omega : (9 * r + c) % 9 = c)]
    exact h0

theorem candCount_le_nine (g : Grid) (r c : Nat) : candCount g r c ≤ 9 := by
  unfold candCount
  exact (List.countP_le_length _).trans (by simp)

theorem fbFold_spec (g : Grid) : ∀ k : Nat,
    ((List.range k).foldl (fbStep g) (none, 10) = ((none : Option (Nat × Nat)), 10) ∧
       ∀ i, i < k → getCell g (i / 9) (i % 9) ≠ 0) ∨
    (∃ i0, i0 < k ∧ getCell g (i0 / 9) (i0 % 9) = 0 ∧
       (List.range k).foldl (fbStep g) (none, 10)
         = (some (i0 / 9, i0 % 9), candCount g (i0 / 9) (i0 % 9)) ∧
       (∀ j, j < k → getCell g (j / 9) (j % 9) = 0 →
         candCount g (i0 / 9) (i0 % 9) ≤ candCount g (j / 9) (j % 9)) ∧
       (∀ j, j < i0 → getCell g (j / 9) (j % 9) = 0 →
         candCount g (i0 / 9) (i0 % 9) < candCount g (j / 9) (j % 9))) := by
  intro k
  induction k with
  | zero => exact Or.inl ⟨rfl, by omega⟩
  | succ k ih =>
    rw [List.range_succ, List.foldl_append, List.foldl_cons, List.foldl_nil]
    by_cases hk : getCell g (k / 9) (k % 9) = 0
    · rcases ih with ⟨hacc, hall⟩ | ⟨i0, hi0k, hemp, hacc, hmin, htie⟩
      · rw [hacc]
        refine Or.inr ⟨k, by omega, hk, ?_, ?_, ?_⟩
        · simp only [fbStep, hk]
          have h9 : candCount g (k / 9) (k % 9) < 10 :=
            Nat.lt_succ_of_le (candCount_le_nine g _ _)
          simp [h9]
        · intro j hj hje
          rcases Nat.lt_or_ge j k with hjk | hjk
          · exact absurd hje (hall j hjk)
          · have : j = k := by omega
            subst this
            simp [fbStep, hk]
        · intro j hj hje
          exact absurd hje (hall j hj)
      · rw [hacc]
        by_cases hlt : candCount g (k / 9) (k % 9)
            < candCount g (i0 / 9) (i0 % 9)
        · refine Or.inr ⟨k, by omega, hk, ?_, ?_, ?_⟩
          · simp [fbStep, hk, hlt]
          · intro j hj hje
            rcases Nat.lt_or_ge j k with hjk | hjk
            · exact le_of_lt (lt_of_lt_of_le hlt (hmin j hjk hje))
            · have : j = k := by omega
              subst this
              exact le_refl _
          · intro j hj hje
            exact lt_of_lt_of_le hlt (hmin j hj hje)
        · refine Or.inr ⟨i0, by omega, hemp, ?_, ?_, htie⟩
          · simp [fbStep, hk, hlt]
          · intro j hj hje
            rcases Nat.lt_or_ge j k with hjk | hjk
            · exact hmin j hjk hje
            · have : j = k := by omega
              subst this
              omega
    · rcases ih with ⟨hacc, hall⟩ | ⟨i0, hi0k, hemp, hacc, hmin, htie⟩
      · rw [hacc]
        refine Or.inl ⟨by simp [fbStep, hk], ?_⟩
        intro i hi
        rcases Nat.lt_or_ge i k with hik | hik
        · exact hall i hik
        · have : i = k := by omega
          subst this
          exact hk
      · rw [hacc]
        refine Or.inr ⟨i0, by omega, hemp, by simp [fbStep, hk], ?_, htie⟩
        intro j hj hje
        rcases Nat.lt_or_ge j k with hjk | hjk
        · exact hmin j hjk hje
        · have : j = k := by omega
          subst this
          exact absurd hje hk

theorem findBestCell_none_iff (g : Grid) :
    findBestCell g = none ↔ ∀ r c, r < 9 → c < 9 → getCell g r c ≠ 0 := by
  unfold findBestCell
  rcases fbFold_spec g 81 with ⟨hacc, hall⟩ | ⟨i0, hi0, hemp, hacc, _, _⟩
  · rw [hacc]
    simp only [true_iff]
    intro r c hr hc
    have := hall (9 * r + c) (by omega)
    rwa [(by omega : (9 * r + c) / 9 = r),
      (by omega : (9 * r + c) % 9 = c)] at this
  · rw [hacc]
    simp only [reduceCtorEq, false_iff, not_forall]
    push_neg
    exact ⟨i0 / 9, i0 % 9, by omega, by omega, hemp⟩

theorem findBestCell_some {g : Grid} {r c : Nat}
    (h : findBestCell g = some (r, c)) :
    r < 9 ∧ c < 9 ∧ getCell g r c = 0 ∧
    (∀ r' c', r' < 9 → c' < 9 → getCell g r' c' = 0 →
      candCount g r c ≤ candCount g r' c') ∧
    (∀ r' c', r' < 9 → c' < 9 → getCell g r' c' = 0 →
      9 * r' + c' < 9 * r + c → candCount g r c < candCount g r' c') := by
  unfold findBestCell at h
  rcases fbFold_spec g 81 with ⟨hacc, _⟩ | ⟨i0, hi0, hemp, hacc, hmin, htie⟩
  · rw [hacc] at h
    exact absurd h (by simp)
  · rw [hacc] at h
    simp only [Option.some.injEq, Prod.mk.injEq] at h
    obtain ⟨hr, hc⟩ := h
    subst hr
    subst hc
    have hi0eq : i0 = 9 * (i0 / 9) + i0 % 9 := by omega
    refine ⟨by omega, by omega, hemp, ?_, ?_⟩
    · intro r' c' hr' hc' hemp'
      have := hmin (9 * r' + c') (by omega)
      rw [(by omega : (9 * r' + c') / 9 = r'),
        (by omega : (9 * r' + c') % 9 = c')] at this
      exact this hemp'
    · intro r' c' hr' hc' hemp' hlt
      have := htie (9 * r' + c') (by omega)
      rw [(by omega : (9 * r' + c') / 9 = r'),
        (by omega : (9 * r' + c') % 9 = c')] at this
      exact this hemp'

/-!
Backtracking restores the grid on failure, and the result of `solveFuel` is
independent of the fuel once the fuel exceeds the number of empty cells.
-/

theorem tryNums_false_grid {slv : Grid → Bool × Grid} {g : Grid} {r c : Nat}
    (hWF : WF g) (hr : r < 9) (hc : c < 9) (h0 : getCell g r c = 0)
    (hslv : ∀ b, WF b → (slv b).1 = false → (slv b).2 = b) :
    ∀ l, (tryNums slv r c g l).1 = false → (tryNums slv r c g l).2 = g := by
  intro l
  induction l with
  | nil => intro _; rfl
  | cons n rest ih =>
    intro hfalse
    rw [tryNums] at hfalse ⊢
    by_cases hv : isValid g r c n = true
    · rw [if_pos hv] at hfalse ⊢
      rcases hres : slv (setCell g r c n) with ⟨ok2, b2⟩
      rw [hres] at hfalse
      cases ok2 with
      | true => simp at hfalse
      | false =>
        have hb2 : b2 = setCell g r c n := by
          have h1 : (slv (setCell g r c n)).1 = false := by rw [hres]
          have h2 := hslv _ (WF_setCell hWF r c n) h1
          rw [hres] at h2
          exact h2
        dsimp only at hfalse
        dsimp only
        rw [hb2, setCell_setCell hWF hr hc, setCell_cancel hWF hr hc h0] at hfalse ⊢
        exact ih hfalse
    · rw [if_neg hv] at hfalse ⊢
      exact ih hfalse

theorem solveFuel_false_grid :
    ∀ (fuel : Nat) (g : Grid), WF g → (solveFuel fuel g).1 = false →
      (solveFuel fuel g).2 = g := by
  intro fuel
  induction fuel with
  | zero => intro g _ _; rfl
  | succ fuel ih =>
    intro g hWF hfalse
    rw [solveFuel] at hfalse ⊢
    rcases hfb : findBestCell g with _ | ⟨r, c⟩
    · rw [hfb] at hfalse
    · rw [hfb] at hfalse
      dsimp only at hfalse
      obtain ⟨hr, hc, h0, _, _⟩ := findBestCell_some hfb
      exact tryNums_false_grid hWF hr hc h0 (fun b hb => ih b hb) _ hfalse

theorem tryNums_fuel_congr {a b : Nat} {g : Grid} {r c : Nat}
    (hWF : WF g) (hr : r < 9) (hc : c < 9) (h0 : getCell g r c = 0)
    (hrec : ∀ n, n ≠ 0 →
      solveFuel a (setCell g r c n) = solveFuel b (setCell g r c n)) :
    ∀ l, (∀ n, n ∈ l → n ≠ 0) →
      tryNums (fun x => solveFuel a x) r c g l
        = tryNums (fun x => solveFuel b x) r c g l := by
  intro l
  induction l with
  | nil => intro _; rfl
  | cons n rest ih =>
    intro hl
    rw [tryNums, tryNums]
    by_cases hv : isValid g r c n = true
    · rw [if_pos hv, if_pos hv]
      rw [hrec n (hl n (List.mem_cons_self n rest))]
      rcases hres : solveFuel b (setCell g r c n) with ⟨ok2, b2⟩
      cases ok2 with
      | true => rfl
      | false =>
        have hb2 : b2 = setCell g r c n := by
          have h1 : (solveFuel b (setCell g r c n)).1 = false := by rw [hres]
          have h2 := solveFuel_false_grid b _ (WF_setCell hWF r c n) h1
          rw [hres] at h2
          exact h2
        dsimp only
        rw [hb2, setCell_setCell hWF hr hc, setCell_cancel hWF hr hc h0]
        exact ih (fun m hm => hl m (List.mem_cons_of_mem n hm))
    · rw [if_neg hv, if_neg hv]
      exact ih (fun m hm => hl m (List.mem_cons_of_mem n hm))

theorem solveFuel_congr :
    ∀ (f1 f2 : Nat) (g : Grid), WF g → emptyCount g < f1 → emptyCount g < f2 →
      solveFuel f1 g = solveFuel f2 g := by
  intro f1
  induction f1 using Nat.strong_induction_on with
  | _ f1 ih =>
    intro f2 g hWF h1 h2
    cases f1 with
    | zero => omega
    | succ fa =>
      cases f2 with
      | zero => omega
      | succ fb =>
        rw [solveFuel, solveFuel]
        rcases hfb : findBestCell g with _ | ⟨r, c⟩
        · rfl
        · dsimp only
          obtain ⟨hr, hc, h0, _, _⟩ := findBestCell_some hfb
          apply tryNums_fuel_congr hWF hr hc h0
          · intro n hn
            have hec : emptyCount (setCell g r c n) + 1 = emptyCount g :=
              emptyCount_setCell hWF hr hc h0 hn
            exact ih fa (by omega) fb (setCell g r c n)
              (WF_setCell hWF r c n) (by omega) (by omega)
          · intro n hn
            simp only [List.mem_cons, List.not_mem_nil, or_false] at hn
            rcases hn with rfl | rfl | rfl | rfl | rfl | rfl | rfl | rfl | rfl <;>
              decide

/-!
Soundness and completeness of the backtracking search.  `ExtendsG g h` says
`h` agrees with `g` on every filled cell of `g`; `Consistent g` says no two
distinct cells of the same row/column/box hold the same nonzero value.
-/

def ExtendsG (g h : Grid) : Prop :=
  ∀ r c, r < 9 → c < 9 → getCell g r c ≠ 0 → getCell h r c = getCell g r c

def SameUnit (r c r' c' : Nat) : Prop :=
  r = r' ∨ c = c' ∨ (r / 3 = r' / 3 ∧ c / 3 = c' / 3)

instance : ∀ r c r' c', Decidable (SameUnit r c r' c') := fun r c r' c' => by
  unfold SameUnit; infer_instance

def Consistent (g : Grid) : Prop :=
  ∀ r, r < 9 → ∀ c, c < 9 → ∀ r', r' < 9 → ∀ c', c' < 9 →
    (r, c) ≠ (r', c') → SameUnit r c r' c' → getCell g r c ≠ 0 →
    getCell g r c ≠ getCell g r' c'

instance : DecidablePred Consistent := fun g => by
  unfold Consistent SameUnit; infer_instance

def GridInRange (g : Grid) : Prop :=
  ∀ r c, r < 9 → c < 9 → getCell g r c ≤ 9

theorem extends_refl (g : Grid) : ExtendsG g g := fun _ _ _ _ _ => rfl

theorem extends_trans {g h k : Grid} (h1 : ExtendsG g h) (h2 : ExtendsG h k) :
    ExtendsG g k := by
  intro r c hr hc hnz
  rw [h2 r c hr hc (by rw [h1 r c hr hc hnz]; exact hnz), h1 r c hr hc hnz]

theorem extends_setCell {g : Grid} {r c n : Nat} (h0 : getCell g r c = 0) :
    ExtendsG g (setCell g r c n) := by
  intro r' c' hr' hc' hnz
  apply getCell_setCell_of_ne
  by_contra hcon
  push_neg at hcon
  obtain ⟨h1, h2⟩ := hcon
  rw [← h1, ← h2, h0] at hnz
  exact hnz rfl

theorem isValid_eq_true_iff (g : Grid) (row col num : Nat) :
    isValid g row col num = true ↔
      (∀ i, i < 9 → getCell g row i ≠ num ∧ getCell g i col ≠ num) ∧
      (∀ i j, i < 3 → j < 3 →
        getCell g (3 * (row / 3) + i) (3 * (col / 3) + j) ≠ num) := by
  unfold isValid
  simp [List.all_eq_true, List.mem_range, and_assoc]
  tauto

theorem getCell_ne_of_isValid {g : Grid} {r c n r' c' : Nat}
    (hr' : r' < 9) (hc' : c' < 9) (hsu : SameUnit r c r' c')
    (hv : isValid g r c n = true) : getCell g r' c' ≠ n := by
  rw [isValid_eq_true_iff] at hv
  rcases hsu with h | h | ⟨h1, h2⟩
  · have := (hv.1 c' hc').1
    rwa [h] at this
  · have := (hv.1 r' hr').2
    rwa [h] at this
  · have := hv.2 (r' % 3) (c' % 3) (Nat.mod_lt _ (by omega)) (Nat.mod_lt _ (by omega))
    rwa [(by omega : 3 * (r / 3) + r' % 3 = r'),
      (by omega : 3 * (c / 3) + c' % 3 = c')] at this

theorem sameUnit_symm {r c r' c' : Nat} (h : SameUnit r c r' c') :
    SameUnit r' c' r c := by
  rcases h with h | h | ⟨h1, h2⟩
  · exact Or.inl h.symm
  · exact Or.inr (Or.inl h.symm)
  · exact Or.inr (Or.inr ⟨h1.symm, h2.symm⟩)

theorem consistent_setCell {g : Grid} (hWF : WF g) (hcons : Consistent g)
    {r c n : Nat} (hr : r < 9) (hc : c < 9) (h0 : getCell g r c = 0)
    (hv : isValid g r c n = true) : Consistent (setCell g r c n) := by
  intro r1 h1 c1 h2 r2 h3 c2 h4 hne hsu hnz
  by_cases he1 : r1 = r ∧ c1 = c
  · obtain ⟨hA, hB⟩ := he1
    subst hA
    subst hB
    have hne2 : r1 ≠ r2 ∨ c1 ≠ c2 := by
      by_contra hcon
      push_neg at hcon
      exact hne (by rw [hcon.1, hcon.2])
    rw [getCell_setCell_self hWF h1 h2, getCell_setCell_of_ne hne2]
    exact (getCell_ne_of_isValid h3 h4 hsu hv).symm
  · have hne1 : r ≠ r1 ∨ c ≠ c1 := by
      by_contra hcon
      push_neg at hcon
      exact he1 ⟨hcon.1.symm, hcon.2.symm⟩
    rw [getCell_setCell_of_ne hne1] at hnz ⊢
    by_cases he2 : r2 = r ∧ c2 = c
    · obtain ⟨hA, hB⟩ := he2
      subst hA
      subst hB
      rw [getCell_setCell_self hWF h3 h4]
      exact getCell_ne_of_isValid h1 h2 (sameUnit_symm hsu) hv
    · have hne2 : r ≠ r2 ∨ c ≠ c2 := by
        by_contra hcon
        push_neg at hcon
        exact he2 ⟨hcon.1.symm, hcon.2.symm⟩
      rw [getCell_setCell_of_ne hne2]
      exact hcons r1 h1 c1 h2 r2 h3 c2 h4 hne hsu hnz

theorem gridInRange_setCell {g : Grid} (hWF : WF g) (hg : GridInRange g)
    {r c n : Nat} (hn : n ≤ 9) : GridInRange (setCell g r c n) := by
  intro r' c' hr' hc'
  by_cases he : r = r' ∧ c = c'
  · obtain ⟨rfl, rfl⟩ := he
    rw [getCell_setCell_self hWF hr' hc']
    exact hn
  · rw [getCell_setCell_of_ne (by tauto)]
    exact hg r' c' hr' hc'

/-- What a successful run of the solver guarantees about its output grid:
well-formedness, agreement with the input on filled cells, no remaining
empty cell, and preservation of consistency and of the value range. -/
def SolveOut (b res : Grid) : Prop :=
  WF res ∧ ExtendsG b res ∧ (∀ r c, r < 9 → c < 9 → getCell res r c ≠ 0) ∧
  (Consistent b → Consistent res) ∧ (GridInRange b → GridInRange res)

theorem solveOut_step {g res : Grid} {r c n : Nat} (hWF : WF g) (hr : r < 9)
    (hc : c < 9) (h0 : getCell g r c = 0) (hn : n ≤ 9)
    (hv : isValid g r c n = true)
    (hout : SolveOut (setCell g r c n) res) : SolveOut g res := by
  obtain ⟨hWFr, hx, hcomp, hcons, hrange⟩ := hout
  refine ⟨hWFr, extends_trans (extends_setCell h0) hx, hcomp, ?_, ?_⟩
  · intro hg
    exact hcons (consistent_setCell hWF hg hr hc h0 hv)
  · intro hg
    exact hrange (gridInRange_setCell hWF hg hn)

theorem tryNums_sound {a : Nat} {g : Grid} {r c : Nat}
    (hWF : WF g) (hr : r < 9) (hc : c < 9) (h0 : getCell g r c = 0)
    (hrec : ∀ b, WF b → (solveFuel a b).1 = true → SolveOut b (solveFuel a b).2) :
    ∀ l, (∀ n, n ∈ l → n ≤ 9) →
      (tryNums (fun x => solveFuel a x) r c g l).1 = true →
      SolveOut g (tryNums (fun x => solveFuel a x) r c g l).2 := by
  intro l
  induction l with
  | nil => intro _ htrue; simp [tryNums] at htrue
  | cons n rest ih =>
    intro hl htrue
    rw [tryNums] at htrue ⊢
    by_cases hv : isValid g r c n = true
    · rw [if_pos hv] at htrue ⊢
      rcases hres : solveFuel a (setCell g r c n) with ⟨ok2, b2⟩
      rw [hres] at htrue
      cases ok2 with
      | true =>
        dsimp only at htrue ⊢
        have hout := hrec (setCell g r c n) (WF_setCell hWF r c n)
          (by rw [hres])
        rw [hres] at hout
        exact solveOut_step hWF hr hc h0 (hl n (List.mem_cons_self n rest)) hv hout
      | false =>
        dsimp only at htrue ⊢
        have hb2 : b2 = setCell g r c n := by
          have h1 : (solveFuel a (setCell g r c n)).1 = false := by rw [hres]
          have h2 := solveFuel_false_grid a _ (WF_setCell hWF r c n) h1
          rw [hres] at h2
          exact h2
        rw [hb2, setCell_setCell hWF hr hc, setCell_cancel hWF hr hc h0] at htrue ⊢
        exact ih (fun m hm => hl m (List.mem_cons_of_mem n hm)) htrue
    · rw [if_neg hv] at htrue ⊢
      exact ih (fun m hm => hl m (List.mem_cons_of_mem n hm)) htrue

theorem solveFuel_sound :
    ∀ (fuel : Nat) (g : Grid), WF g → (solveFuel fuel g).1 = true →
      SolveOut g (solveFuel fuel g).2 := by
  intro fuel
  induction fuel with
  | zero => intro g _ htrue; simp [solveFuel] at htrue
  | succ fuel ih =>
    intro g hWF htrue
    rw [solveFuel] at htrue ⊢
    rcases hfb : findBestCell g with _ | ⟨r, c⟩
    · rw [hfb] at htrue
      dsimp only at htrue ⊢
      refine ⟨hWF, extends_refl g, ?_, fun h => h, fun h => h⟩
      exact (findBestCell_none_iff g).mp hfb
    · rw [hfb] at htrue
      dsimp only at htrue ⊢
      obtain ⟨hr, hc, h0, _, _⟩ := findBestCell_some hfb
      apply tryNums_sound hWF hr hc h0 (fun b hb ht => ih b hb ht) _ ?_ htrue
      intro m hm
      simp only [List.mem_cons, List.not_mem_nil, or_false] at hm
      rcases hm with rfl | rfl | rfl | rfl | rfl | rfl | rfl | rfl | rfl <;> decide

theorem tryNums_complete {a : Nat} {g : Grid} {r c : Nat}
    (hWF : WF g) (hr : r < 9) (hc : c < 9) (h0 : getCell g r c = 0) :
    ∀ l v, v ∈ l → isValid g r c v = true →
      (solveFuel a (setCell g r c v)).1 = true →
      (tryNums (fun x => solveFuel a x) r c g l).1 = true := by
  intro l
  induction l with
  | nil => intro v hv; simp at hv
  | cons n rest ih =>
    intro v hvmem hvalid hsucc
    rw [tryNums]
    rcases List.mem_cons.mp hvmem with heq | hvrest
    · subst heq
      rw [if_pos hvalid]
      rcases hres : solveFuel a (setCell g r c v) with ⟨ok2, b2⟩
      cases ok2 with
      | true => rfl
      | false =>
        rw [hres] at hsucc
        simp at hsucc
    · by_cases hn : isValid g r c n = true
      · rw [if_pos hn]
        rcases hres : solveFuel a (setCell g r c n) with ⟨ok2, b2⟩
        cases ok2 with
        | true => rfl
        | false =>
          dsimp only
          have hb2 : b2 = setCell g r c n := by
            have h1 : (solveFuel a (setCell g r c n)).1 = false := by rw [hres]
            have h2 := solveFuel_false_grid a _ (WF_setCell hWF r c n) h1
            rw [hres] at h2
            exact h2
          rw [hb2, setCell_setCell hWF hr hc, setCell_cancel hWF hr hc h0]
          exact ih v hvrest hvalid hsucc
      · rw [if_neg hn]
        exact ih v hvrest hvalid hsucc

theorem isValid_of_solution {g S : Grid} (hx : ExtendsG g S) (hS : Consistent S)
    {r c : Nat} (hr : r < 9) (hc : c < 9) (h0 : getCell g r c = 0)
    (hv1 : 1 ≤ getCell S r c) : isValid g r c (getCell S r c) = true := by
  rw [isValid_eq_true_iff]
  refine ⟨?_, ?_⟩
  · intro i hi
    constructor
    · intro heq
      have hic : i ≠ c := by
        intro hh
        subst hh
        rw [h0] at heq
        omega
      have hSri : getCell S r i = getCell S r c := by
        rw [hx r i hr hi (by omega), heq]
      exact hS r hr i hi r hr c hc
        (fun hp => hic (congrArg Prod.snd hp))
        (Or.inl rfl) (by rw [hSri]; omega) hSri
    · intro heq
      have hic : i ≠ r := by
        intro hh
        subst hh
        rw [h0] at heq
        omega
      have hSic : getCell S i c = getCell S r c := by
        rw [hx i c hi hc (by omega), heq]
      exact hS i hi c hc r hr c hc
        (fun hp => hic (congrArg Prod.fst hp))
        (Or.inr (Or.inl rfl)) (by rw [hSic]; omega) hSic
  · intro i j hi hj heq
    have hbr : 3 * (r / 3) + i < 9 := by omega
    have hbc : 3 * (c / 3) + j < 9 := by omega
    have hne : (3 * (r / 3) + i, 3 * (c / 3) + j) ≠ (r, c) := by
      intro hp
      have h1 : 3 * (r / 3) + i = r := congrArg Prod.fst hp
      have h2 : 3 * (c / 3) + j = c := congrArg Prod.snd hp
      rw [h1, h2, h0] at heq
      omega
    have hSbox : getCell S (3 * (r / 3) + i) (3 * (c / 3) + j) = getCell S r c := by
      rw [hx _ _ hbr hbc (by omega), heq]
    exact hS (3 * (r / 3) + i) hbr (3 * (c / 3) + j) hbc r hr c hc hne
      (Or.inr (Or.inr ⟨by omega, by omega⟩)) (by rw [hSbox]; omega) hSbox

theorem extends_setCell_target {g S : Grid} {r c : Nat} (hx : ExtendsG g S)
    (hr : r < 9) (hc : c < 9) (hWF : WF g) :
    ExtendsG (setCell g r c (getCell S r c)) S := by
  intro r' c' hr' hc' hnz
  by_cases he : r = r' ∧ c = c'
  · obtain ⟨rfl, rfl⟩ := he
    rw [getCell_setCell_self hWF hr hc]
  · rw [getCell_setCell_of_ne (by tauto)] at hnz ⊢
    exact hx r' c' hr' hc' hnz

theorem solveFuel_complete :
    ∀ (fuel : Nat) (g S : Grid), WF g → ExtendsG g S → Consistent S →
      (∀ r c, r < 9 → c < 9 → 1 ≤ getCell S r c ∧ getCell S r c ≤ 9) →
      emptyCount g < fuel → (solveFuel fuel g).1 = true := by
  intro fuel
  induction fuel with
  | zero => intro g S _ _ _ _ h; omega
  | succ fuel ih =>
    intro g S hWFg hx hSc hSr hec
    rw [solveFuel]
    rcases hfb : findBestCell g with _ | ⟨r, c⟩
    · rfl
    · dsimp only
      obtain ⟨hr, hc, h0, _, _⟩ := findBestCell_some hfb
      have hv19 := hSr r c hr hc
      have hvalid : isValid g r c (getCell S r c) = true :=
        isValid_of_solution hx hSc hr hc h0 hv19.1
      have hmem : getCell S r c ∈ [1, 2, 3, 4, 5, 6, 7, 8, 9] := by
        simp only [List.mem_cons, List.not_mem_nil, or_false]
        omega
      apply tryNums_complete hWFg hr hc h0 _ _ hmem hvalid
      have hec2 : emptyCount (setCell g r c (getCell S r c)) + 1 = emptyCount g :=
        emptyCount_setCell hWFg hr hc h0 (by omega)
      exact ih (setCell g r c (getCell S r c)) S
        (WF_setCell hWFg r c _)
        (extends_setCell_target hx hr hc hWFg) hSc hSr (by omega)

/-!
Validity of a completed grid: every row, column, and 3×3 box contains each
of `1..9` exactly once.
-/

def rowVals (g : Grid) (r : Nat) : List Nat :=
  (List.range 9).map fun c => getCell g r c

def colVals (g : Grid) (c : Nat) : List Nat :=
  (List.range 9).map fun r => getCell g r c

def boxVals (g : Grid) (b : Nat) : List Nat :=
  (List.range 9).map fun k => getCell g (3 * (b / 3) + k / 3) (3 * (b % 3) + k % 3)

/-- The validity property claimed of the `solution` grid: every cell holds a
value in `1..9`, and every row, column, and box contains each value of
`1..9` exactly once. -/
def SolvedGridValid (g : Grid) : Prop :=
  (∀ r c, r < 9 → c < 9 → 1 ≤ getCell g r c ∧ getCell g r c ≤ 9) ∧
  (∀ u, u < 9 → ∀ v, 1 ≤ v → v ≤ 9 →
    (rowVals g u).count v = 1 ∧ (colVals g u).count v = 1 ∧
    (boxVals g u).count v = 1)

theorem count_one_of_inj (f : Nat → Nat)
    (hinj : ∀ i j, i < 9 → j < 9 → f i = f j → i = j)
    (hbd : ∀ i, i < 9 → 1 ≤ f i ∧ f i ≤ 9) :
    ∀ v, 1 ≤ v → v ≤ 9 → ((List.range 9).map f).count v = 1 := by
  have hnd : ((List.range 9).map f).Nodup :=
    List.Nodup.map_on
      (fun x hx y hy hxy =>
        hinj x y (List.mem_range.mp hx) (List.mem_range.mp hy) hxy)
      (List.nodup_range 9)
  have hsub : ((List.range 9).map f).toFinset ⊆ Finset.Icc 1 9 := by
    intro x hx
    simp only [List.mem_toFinset, List.mem_map, List.mem_range] at hx
    obtain ⟨i, hi, rfl⟩ := hx
    simp only [Finset.mem_Icc]
    exact hbd i hi
  have hcard : ((List.range 9).map f).toFinset.card = 9 := by
    rw [List.toFinset_card_of_nodup hnd]
    simp
  have heq : ((List.range 9).map f).toFinset = Finset.Icc 1 9 := by
    apply Finset.eq_of_subset_of_card_le hsub
    rw [hcard, Nat.card_Icc]
  intro v h1 h9
  have hv : v ∈ (List.range 9).map f := by
    rw [← List.mem_toFinset, heq]
    simp only [Finset.mem_Icc]
    omega
  exact List.count_eq_one_of_mem hnd hv

theorem solvedGridValid_of_consistent {g : Grid}
    (hcomp : ∀ r c, r < 9 → c < 9 → getCell g r c ≠ 0)
    (hrange : GridInRange g) (hcons : Consistent g) : SolvedGridValid g := by
  have hbd : ∀ r c, r < 9 → c < 9 → 1 ≤ getCell g r c ∧ getCell g r c ≤ 9 :=
    fun r c hr hc => ⟨by have := hcomp r c hr hc; omega, hrange r c hr hc⟩
  refine ⟨hbd, ?_⟩
  intro u hu v h1 h9
  refine ⟨?_, ?_, ?_⟩
  · apply count_one_of_inj _ ?_ (fun i hi => hbd u i hu hi) v h1 h9
    intro i j hi hj hij
    by_contra hne
    exact hcons u hu i hi u hu j hj (fun hp => hne (congrArg Prod.snd hp))
      (Or.inl rfl) (hcomp u i hu hi) hij
  · apply count_one_of_inj _ ?_ (fun i hi => hbd i u hi hu) v h1 h9
    intro i j hi hj hij
    by_contra hne
    exact hcons i hi u hu j hj u hu (fun hp => hne (congrArg Prod.fst hp))
      (Or.inr (Or.inl rfl)) (hcomp i u hi hu) hij
  · apply count_one_of_inj _ ?_ ?_ v h1 h9
    · intro i j hi hj hij
      by_contra hne
      have hr1 : 3 * (u / 3) + i / 3 < 9 := by omega
      have hc1 : 3 * (u % 3) + i % 3 < 9 := by omega
      have hr2 : 3 * (u / 3) + j / 3 < 9 := by omega
      have hc2 : 3 * (u % 3) + j % 3 < 9 := by omega
      have hpne : (3 * (u / 3) + i / 3, 3 * (u % 3) + i % 3)
          ≠ (3 * (u / 3) + j / 3, 3 * (u % 3) + j % 3) := by
        intro hp
        have e1 : 3 * (u / 3) + i / 3 = 3 * (u / 3) + j / 3 :=
          congrArg Prod.fst hp
        have e2 : 3 * (u % 3) + i % 3 = 3 * (u % 3) + j % 3 :=
          congrArg Prod.snd hp
        omega
      exact hcons _ hr1 _ hc1 _ hr2 _ hc2 hpne
        (Or.inr (Or.inr ⟨by omega, by omega⟩)) (hcomp _ _ hr1 hc1) hij
    · intro i hi
      exact hbd _ _ (by omega) (by omega)

/-!
Concrete solution certificates for the three fixed puzzle definitions,
and the loader correctness theorem built from completeness and soundness
of the search.
-/

def easySolution : Grid :=
  [[4, 8, 3, 9, 2, 1, 6, 5, 7],
   [9, 6, 7, 3, 4, 5, 8, 2, 1],
   [2, 5, 1, 8, 7, 6, 4, 9, 3],
   [5, 4, 8, 1, 3, 2, 9, 7, 6],
   [7, 2, 9, 5, 6, 4, 1, 3, 8],
   [1, 3, 6, 7, 9, 8, 2, 4, 5],
   [3, 7, 2, 6, 8, 9, 5, 1, 4],
   [8, 1, 4, 2, 5, 3, 7, 6, 9],
   [6, 9, 5, 4, 1, 7, 3, 8, 2]]

def mediumSolution : Grid :=
  [[2, 4, 5, 9, 8, 1, 3, 7, 6],
   [1, 6, 9, 2, 7, 3, 5, 8, 4],
   [8, 3, 7, 5, 6, 4, 2, 1, 9],
   [9, 7, 6, 1, 2, 5, 4, 3, 8],
   [5, 1, 3, 4, 9, 8, 6, 2, 7],
   [4, 8, 2, 7, 3, 6, 9, 5, 1],
   [3, 9, 1, 6, 5, 7, 8, 4, 2],
   [7, 2, 8, 3, 4, 9, 1, 6, 5],
   [6, 5, 4, 8, 1, 2, 7, 9, 3]]

def hardSolution : Grid :=
  [[8, 5, 9, 6, 1, 2, 4, 3, 7],
   [7, 2, 3, 8, 5, 4, 1, 6, 9],
   [1, 6, 4, 3, 7, 9, 5, 2, 8],
   [9, 8, 6, 1, 4, 7, 3, 5, 2],
   [3, 7, 5, 2, 6, 8, 9, 1, 4],
   [2, 4, 1, 5, 9, 3, 7, 8, 6],
   [4, 3, 2, 9, 8, 1, 6, 7, 5],
   [6, 1, 7, 4, 2, 5, 8, 9, 3],
   [5, 9, 8, 7, 3, 6, 2, 4, 1]]

def easyParsed : Grid :=
  [[0, 0, 3, 0, 2, 0, 6, 0, 0],
   [9, 0, 0, 3, 0, 5, 0, 0, 1],
   [0, 0, 1, 8, 0, 6, 4, 0, 0],
   [0, 0, 8, 1, 0, 2, 9, 0, 0],
   [7, 0, 0, 0, 0, 0, 0, 0, 8],
   [0, 0, 6, 7, 0, 8, 2, 0, 0],
   [0, 0, 2, 6, 0, 9, 5, 0, 0],
   [8, 0, 0, 2, 0, 3, 0, 0, 9],
   [0, 0, 5, 0, 1, 0, 3, 0, 0]]

def mediumParsed : Grid :=
  [[2, 0, 0, 0, 8, 0, 3, 0, 0],
   [0, 6, 0, 0, 7, 0, 0, 8, 4],
   [0, 3, 0, 5, 0, 0, 2, 0, 9],
   [0, 0, 0, 1, 0, 5, 4, 0, 8],
   [0, 0, 0, 0, 0, 0, 0, 0, 0],
   [4, 0, 2, 7, 0, 6, 0, 0, 0],
   [3, 0, 1, 0, 0, 7, 0, 4, 0],
   [7, 2, 0, 0, 4, 0, 0, 6, 0],
   [0, 0, 4, 0, 1, 0, 0, 0, 3]]

def hardParsed : Grid :=
  [[8, 5, 0, 0, 0, 2, 4, 0, 0],
   [7, 2, 0, 0, 0, 0, 0, 0, 9],
   [0, 0, 4, 0, 0, 0, 0, 0, 0],
   [0, 0, 0, 1, 0, 7, 0, 0, 2],
   [3, 0, 5, 0, 0, 0, 9, 0, 0],
   [0, 4, 0, 0, 0, 0, 0, 0, 0],
   [0, 0, 0, 0, 8, 0, 0, 7, 0],
   [0, 1, 7, 0, 0, 0, 0, 0, 0],
   [0, 0, 0, 0, 3, 6, 0, 4, 0]]

theorem easy_parse_eq : parseGrid easyPuzzle.toList = easyParsed := by decide

theorem medium_parse_eq : parseGrid mediumPuzzle.toList = mediumParsed := by decide

theorem hard_parse_eq : parseGrid hardPuzzle.toList = hardParsed := by decide

theorem WF_parseGrid (s : List Char) : WF (parseGrid s) := by
  constructor
  · simp [parseGrid]
  · intro row hrow
    simp only [parseGrid, List.mem_map, List.mem_range] at hrow
    obtain ⟨r, _, rfl⟩ := hrow
    simp

theorem extendsG_of_ball {g h : Grid}
    (hb : ∀ r, r < 9 → ∀ c, c < 9 →
      (getCell g r c ≠ 0 → getCell h r c = getCell g r c)) :
    ExtendsG g h := fun r c hr hc => hb r hr c hc

theorem gridInRange_of_ball {g : Grid}
    (hb : ∀ r, r < 9 → ∀ c, c < 9 → getCell g r c ≤ 9) :
    GridInRange g := fun r c hr hc => hb r hr c hc

theorem range19_of_ball {S : Grid}
    (hb : ∀ r, r < 9 → ∀ c, c < 9 →
      1 ≤ getCell S r c ∧ getCell S r c ≤ 9) :
    ∀ r c, r < 9 → c < 9 → 1 ≤ getCell S r c ∧ getCell S r c ≤ 9 :=
  fun r c hr hc => hb r hr c hc

theorem generatePuzzleStr_ok_of_solveTrue {s : List Char}
    (h : (solve (parseGrid s)).1 = true) :
    generatePuzzleStr s = Except.ok (mkPuzzleBoard s, (solve (parseGrid s)).2) := by
  unfold generatePuzzleStr
  rcases hres : solve (parseGrid s) with ⟨ok, g2⟩
  rw [hres] at h
  cases ok with
  | false => simp at h
  | true => rfl

theorem easy_parse_consistent : Consistent (parseGrid easyPuzzle.toList) := by
  rw [easy_parse_eq]
  decide

theorem easy_parse_inRange : GridInRange (parseGrid easyPuzzle.toList) :=
  gridInRange_of_ball (by rw [easy_parse_eq]; decide)

theorem easy_solve_true : (solve (parseGrid easyPuzzle.toList)).1 = true :=
  solveFuel_complete 82 _ easySolution (WF_parseGrid _)
    (extendsG_of_ball (by rw [easy_parse_eq]; decide)) (by decide)
    (range19_of_ball (by decide))
    (Nat.lt_of_le_of_lt (emptyCount_le _) (by omega))

theorem easy_solveOut :
    SolveOut (parseGrid easyPuzzle.toList) (solve (parseGrid easyPuzzle.toList)).2 :=
  solveFuel_sound 82 _ (WF_parseGrid _) easy_solve_true

theorem medium_parse_consistent : Consistent (parseGrid mediumPuzzle.toList) := by
  rw [medium_parse_eq]
  decide

theorem medium_parse_inRange : GridInRange (parseGrid mediumPuzzle.toList) :=
  gridInRange_of_ball (by rw [medium_parse_eq]; decide)

theorem medium_solve_true : (solve (parseGrid mediumPuzzle.toList)).1 = true :=
  solveFuel_complete 82 _ mediumSolution (WF_parseGrid _)
    (extendsG_of_ball (by rw [medium_parse_eq]; decide)) (by decide)
    (range19_of_ball (by decide))
    (Nat.lt_of_le_of_lt (emptyCount_le _) (by omega))

theorem medium_solveOut :
    SolveOut (parseGrid mediumPuzzle.toList) (solve (parseGrid mediumPuzzle.toList)).2 :=
  solveFuel_sound 82 _ (WF_parseGrid _) medium_solve_true

theorem hard_parse_consistent : Consistent (parseGrid hardPuzzle.toList) := by
  rw [hard_parse_eq]
  decide

theorem hard_parse_inRange : GridInRange (parseGrid hardPuzzle.toList) :=
  gridInRange_of_ball (by rw [hard_parse_eq]; decide)

theorem hard_solve_true : (solve (parseGrid hardPuzzle.toList)).1 = true :=
  solveFuel_complete 82 _ hardSolution (WF_parseGrid _)
    (extendsG_of_ball (by rw [hard_parse_eq]; decide)) (by decide)
    (range19_of_ball (by decide))
    (Nat.lt_of_le_of_lt (emptyCount_le _) (by omega))

theorem hard_solveOut :
    SolveOut (parseGrid hardPuzzle.toList) (solve (parseGrid hardPuzzle.toList)).2 :=
  solveFuel_sound 82 _ (WF_parseGrid _) hard_solve_true

/-- C1: for each of the three fixed puzzle definitions the loader
`generatePuzzle` succeeds, and the solution grid it returns is a valid
completed Sudoku: every cell holds a value in `1..9` and every row, column,
and 3×3 box contains each of `1..9` exactly once. -/
theorem generatePuzzle_ok_and_solution_valid :
    ∀ d : Difficulty, ∃ pz sol,
      generatePuzzle d = Except.ok (pz, sol) ∧ SolvedGridValid sol := by
  intro d
  cases d with
  | easy =>
    exact ⟨mkPuzzleBoard easyPuzzle.toList, (solve (parseGrid easyPuzzle.toList)).2,
      generatePuzzleStr_ok_of_solveTrue easy_solve_true,
      solvedGridValid_of_consistent easy_solveOut.2.2.1
        (easy_solveOut.2.2.2.2 easy_parse_inRange)
        (easy_solveOut.2.2.2.1 easy_parse_consistent)⟩
  | medium =>
    exact ⟨mkPuzzleBoard mediumPuzzle.toList, (solve (parseGrid mediumPuzzle.toList)).2,
      generatePuzzleStr_ok_of_solveTrue medium_solve_true,
      solvedGridValid_of_consistent medium_solveOut.2.2.1
        (medium_solveOut.2.2.2.2 medium_parse_inRange)
        (medium_solveOut.2.2.2.1 medium_parse_consistent)⟩
  | hard =>
    exact ⟨mkPuzzleBoard hardPuzzle.toList, (solve (parseGrid hardPuzzle.toList)).2,
      generatePuzzleStr_ok_of_solveTrue hard_solve_true,
      solvedGridValid_of_consistent hard_solveOut.2.2.1
        (hard_solveOut.2.2.2.2 hard_parse_inRange)
        (hard_solveOut.2.2.2.1 hard_parse_consistent)⟩

/-!
Determinism of the loader, behaviour on unsolvable definitions, and
fuel-independence of the solver.
-/

/-- An 81-character definition with no valid completion: cell `(0, 0)` is
empty, its row already holds `2..9`, and its column already holds `4`, so
no candidate fits and the solver fails at once. -/
def failPuzzle : String :=
  ".83921657467345821251876493548132976729564138136798245372689514814253769695417382"

/-- C3: loading is deterministic: two invocations of the loader on the same
definition string return identical results; in particular the solution
grids coincide. -/
theorem generatePuzzleStr_deterministic (s : List Char)
    (pz1 pz2 : Board) (sol1 sol2 : Grid)
    (h1 : generatePuzzleStr s = Except.ok (pz1, sol1))
    (h2 : generatePuzzleStr s = Except.ok (pz2, sol2)) :
    sol1 = sol2 ∧ pz1 = pz2 := by
  rw [h1] at h2
  simp only [Except.ok.injEq, Prod.mk.injEq] at h2
  exact ⟨h2.2, h2.1⟩

theorem generatePuzzleStr_deterministic_witness :
    generatePuzzleStr easyPuzzle.toList
      = Except.ok (mkPuzzleBoard easyPuzzle.toList,
          (solve (parseGrid easyPuzzle.toList)).2) ∧
    ((solve (parseGrid easyPuzzle.toList)).2 = (solve (parseGrid easyPuzzle.toList)).2 ∧
      mkPuzzleBoard easyPuzzle.toList = mkPuzzleBoard easyPuzzle.toList) := by
  have hok := generatePuzzleStr_ok_of_solveTrue easy_solve_true
  exact ⟨hok, generatePuzzleStr_deterministic easyPuzzle.toList _ _ _ _ hok hok⟩

/-- C9: if the loader fails on a puzzle definition, `startGame` does not
crash: the failure is caught and the session is left with status `menu`. -/
theorem startGame_failure_to_menu (s : List Char) (d : Difficulty)
    (st : GameState) (msg : String)
    (hfail : generatePuzzleStr s = Except.error msg) :
    (startGameStr s d st).status = GameStatus.menu := by
  unfold startGameStr
  rw [hfail]

theorem generatePuzzleStr_error_of_solveFalse {s : List Char}
    (h : (solve (parseGrid s)).1 = false) :
    generatePuzzleStr s = Except.error "Failed to solve puzzle" := by
  unfold generatePuzzleStr
  rcases hres : solve (parseGrid s) with ⟨ok, g2⟩
  rw [hres] at h
  cases ok with
  | false => rfl
  | true => simp at h

theorem startGame_failure_to_menu_witness :
    (startGameStr failPuzzle.toList Difficulty.easy initialState).status
      = GameStatus.menu :=
  startGame_failure_to_menu failPuzzle.toList Difficulty.easy initialState
    "Failed to solve puzzle" (generatePuzzleStr_error_of_solveFalse (by decide))

/-- C10: whenever `solve` returns `false` on a 9×9 grid, the grid it hands
back is exactly the input grid: every tentative placement of the failed
search has been reverted. -/
theorem solve_failure_leaves_grid_unchanged (g : Grid) (hWF : WF g)
    (hfail : (solve g).1 = false) : (solve g).2 = g :=
  solveFuel_false_grid 82 g hWF hfail

theorem solve_failure_leaves_grid_unchanged_witness :
    (solve (parseGrid failPuzzle.toList)).2 = parseGrid failPuzzle.toList :=
  solve_failure_leaves_grid_unchanged (parseGrid failPuzzle.toList)
    (WF_parseGrid failPuzzle.toList) (by decide)

/-- C8: the solver is a total function returning a boolean on every 9×9
grid; its search is exhausted within recursion depth bounded by the number
of empty cells (at most 81): any fuel beyond the empty-cell count gives the
same result, and `solve`'s fuel of 82 is always in that regime. -/
theorem solve_total_and_fuel_bounded (g : Grid) (hWF : WF g) :
    emptyCount g ≤ 81 ∧ solve g = solveFuel (emptyCount g + 1) g ∧
    (∀ fuel, emptyCount g < fuel →
      solveFuel fuel g = solveFuel (emptyCount g + 1) g) := by
  refine ⟨emptyCount_le g, ?_, ?_⟩
  · exact solveFuel_congr 82 (emptyCount g + 1) g hWF
      (by have := emptyCount_le g; omega) (by omega)
  · intro fuel hf
    exact solveFuel_congr fuel (emptyCount g + 1) g hWF hf (by omega)

theorem solve_total_and_fuel_bounded_witness :
    WF easyParsed ∧
    (emptyCount easyParsed ≤ 81 ∧
      solve easyParsed = solveFuel (emptyCount easyParsed + 1) easyParsed ∧
      (∀ fuel, emptyCount easyParsed < fuel →
        solveFuel fuel easyParsed = solveFuel (emptyCount easyParsed + 1) easyParsed)) :=
  ⟨by decide, solve_total_and_fuel_bounded easyParsed (by decide)⟩

/-!
Algebra of the cell board and characterisation of the session-controller
operations.
-/

def WFB (b : Board) : Prop := b.length = 9 ∧ ∀ row ∈ b, row.length = 9

instance : DecidablePred WFB := fun b => by
  unfold WFB; infer_instance

theorem WFB_rowLen {b : Board} (h : WFB b) {r : Nat} (hr : r < 9) :
    (b.getD r []).length = 9 := by
  have hlt : r < b.length := h.1 ▸ hr
  have hrow : b.getD r [] = b[r] := by
    simp [List.getD_eq_getElem?_getD, List.getElem?_eq_getElem hlt]
  rw [hrow]
  exact h.2 _ (List.getElem_mem hlt)

theorem getBCell_setBCell_self {b : Board} (h : WFB b) {r c : Nat}
    (hr : r < 9) (hc : c < 9) {cell : Cell} :
    getBCell (setBCell b r c cell) r c = cell := by
  have hrl : r < b.length := h.1 ▸ hr
  have hcl : c < (b.getD r []).length := by rw [WFB_rowLen h hr]; exact hc
  unfold getBCell setBCell
  rw [getD_set_self_list b hrl, getD_set_self_list _ hcl]

theorem getBCell_setBCell_of_ne {b : Board} {r c r' c' : Nat}
    (hne : r ≠ r' ∨ c ≠ c') {cell : Cell} :
    getBCell (setBCell b r c cell) r' c' = getBCell b r' c' := by
  unfold getBCell setBCell
  by_cases hrr : r = r'
  · subst hrr
    have hcc : c ≠ c' := hne.resolve_left (fun hh => hh rfl)
    by_cases hlt : r < b.length
    · rw [getD_set_self_list b hlt, getD_set_ne_list _ hcc]
    · rw [List.set_eq_of_length_le (Nat.le_of_not_lt hlt)]
  · rw [getD_set_ne_list b hrr]

theorem WFB_setBCell {b : Board} (h : WFB b) (r c : Nat) (cell : Cell) :
    WFB (setBCell b r c cell) := by
  by_cases hr : r < 9
  · constructor
    · simp [setBCell, h.1]
    · intro row hrow
      simp only [setBCell] at hrow
      rcases List.mem_or_eq_of_mem_set hrow with hmem | heq
      · exact h.2 _ hmem
      · subst heq
        simp only [List.length_set]
        exact WFB_rowLen h hr
  · have hle : b.length ≤ r := by rw [h.1]; omega
    unfold setBCell
    rw [List.set_eq_of_length_le hle]
    exact h

theorem WFB_mkPuzzleBoard (s : List Char) : WFB (mkPuzzleBoard s) := by
  constructor
  · simp [mkPuzzleBoard]
  · intro row hrow
    simp only [mkPuzzleBoard, List.mem_map, List.mem_range] at hrow
    obtain ⟨r, _, rfl⟩ := hrow
    simp

theorem checkWinG_eq_true_iff (sol : Grid) (b : Board) :
    checkWinG sol b = true ↔
      ∀ r c, r < 9 → c < 9 →
        (getBCell b r c).value = some (getCell sol r c) := by
  unfold checkWinG
  simp only [List.all_eq_true, List.mem_range, Bool.and_eq_true,
    Bool.not_eq_eq_eq_not, Bool.not_true, beq_eq_false_iff_ne, ne_eq,
    beq_iff_eq]
  constructor
  · intro h r c hr hc
    exact (h r hr c hc).2
  · intro h r hr c hc
    refine ⟨?_, h r c hr hc⟩
    rw [h r c hr hc]
    simp

theorem checkWinG_false_of_cell {sol : Grid} {b : Board} {r0 c0 : Nat}
    (hr : r0 < 9) (hc : c0 < 9)
    (hbad : (getBCell b r0 c0).value = none ∨
      (getBCell b r0 c0).value ≠ some (getCell sol r0 c0)) :
    checkWinG sol b = false := by
  by_contra hcon
  have htrue : checkWinG sol b = true := by
    cases hx : checkWinG sol b
    · exact absurd hx hcon
    · rfl
  have := (checkWinG_eq_true_iff sol b).mp htrue r0 c0 hr hc
  rcases hbad with hbad | hbad
  · rw [hbad] at this
    exact Option.noConfusion this
  · exact hbad this

theorem solutionMismatch_some {sol : Grid} {r c d : Nat} :
    solutionMismatch (some sol) r c d = !(getCell sol r c == d) := rfl

/-- The erase action on a playing session with a selected, non-given cell:
the cell's value is cleared, `isInvalid` reset, and the win check runs. -/
theorem handleNumberInput_erase_eq (st : GameState) (b : Board) (r c : Nat)
    (hstatus : st.status = GameStatus.playing)
    (hb : st.board = some b) (hsel : st.selectedCell = some (r, c))
    (hgiven : (getBCell b r c).isGiven = false) :
    handleNumberInput none st =
      (let newBoard := setBCell b r c
        { getBCell b r c with value := none, isInvalid := false }
       let st' := { st with board := some newBoard }
       if checkWinG (st.solution.getD []) newBoard then
         { st' with status := GameStatus.solved }
       else st') := by
  unfold handleNumberInput
  rw [hb, hsel, if_neg (by rw [hstatus]; simp)]
  dsimp only
  rw [if_neg (by rw [hgiven]; simp)]

/-- A digit entry on a playing session with a selected, non-given cell:
the digit is written, `isInvalid` is recomputed against the solution, the
error count is bumped exactly on a fresh mismatch, and the win check runs. -/
theorem handleNumberInput_digit_eq (st : GameState) (b : Board) (r c d : Nat)
    (hstatus : st.status = GameStatus.playing)
    (hb : st.board = some b) (hsel : st.selectedCell = some (r, c))
    (hgiven : (getBCell b r c).isGiven = false) :
    handleNumberInput (some d) st =
      (let cell := getBCell b r c
       let mismatch := solutionMismatch st.solution r c d
       let newBoard := setBCell b r c
         { cell with value := some d, isInvalid := mismatch }
       let newErrors := if mismatch && !cell.isInvalid then st.errors + 1
         else st.errors
       let st' := { st with board := some newBoard, errors := newErrors }
       if checkWinG (st.solution.getD []) newBoard then
         { st' with status := GameStatus.solved }
       else st') := by
  unfold handleNumberInput
  rw [hb, hsel, if_neg (by rw [hstatus]; simp)]
  dsimp only
  rw [if_neg (by rw [hgiven]; simp)]

/-- C6: operations targeted at a given cell are complete no-ops: entering
any digit or erasing leaves the whole session state unchanged. -/
theorem handleNumberInput_given_noop (st : GameState) (b : Board) (r c : Nat)
    (hb : st.board = some b) (hsel : st.selectedCell = some (r, c))
    (hgiven : (getBCell b r c).isGiven = true) :
    ∀ num, handleNumberInput num st = st := by
  intro num
  unfold handleNumberInput
  by_cases hstatus : st.status ≠ GameStatus.playing
  · rw [if_pos hstatus]
  · rw [if_neg hstatus, hb, hsel]
    dsimp only
    rw [if_pos hgiven]

def demoBoard : Board := mkPuzzleBoard easyPuzzle.toList

/-- A playing session on the easy board with the given cell `(0, 2)`
selected (the definition string has `'3'` there). -/
def givenCellState : GameState :=
  { status := GameStatus.playing, difficulty := Difficulty.easy,
    board := some demoBoard, solution := some easySolution,
    selectedCell := some (0, 2), timer := 0, errors := 0 }

theorem handleNumberInput_given_noop_witness :
    handleNumberInput (some 5) givenCellState = givenCellState ∧
    handleNumberInput none givenCellState = givenCellState :=
  ⟨handleNumberInput_given_noop givenCellState demoBoard 0 2 rfl rfl
      (by decide) (some 5),
   handleNumberInput_given_noop givenCellState demoBoard 0 2 rfl rfl
      (by decide) none⟩

/-- Full description of a digit entry into a selected, non-given cell of a
playing session: the new board holds the digit with `isInvalid` recomputed,
and the error count is bumped exactly on a fresh mismatch. -/
theorem handleNumberInput_digit_spec (st : GameState) (b : Board) (sol : Grid)
    (r c d : Nat) (hstatus : st.status = GameStatus.playing)
    (hb : st.board = some b) (hsol : st.solution = some sol)
    (hsel : st.selectedCell = some (r, c)) (hWFB : WFB b)
    (hr : r < 9) (hc : c < 9)
    (hgiven : (getBCell b r c).isGiven = false) :
    ∃ nb, (handleNumberInput (some d) st).board = some nb ∧
      (getBCell nb r c).isInvalid = decide (getCell sol r c ≠ d) ∧
      (getBCell nb r c).value = some d ∧
      (handleNumberInput (some d) st).errors =
        (if getCell sol r c ≠ d ∧ (getBCell b r c).isInvalid = false
         then st.errors + 1 else st.errors) := by
  rw [handleNumberInput_digit_eq st b r c d hstatus hb hsel hgiven]
  dsimp only
  have hmm : solutionMismatch st.solution r c d
      = decide (getCell sol r c ≠ d) := by
    rw [hsol, solutionMismatch_some]
    by_cases hx : getCell sol r c = d
    · simp [hx]
    · simp [hx]
  have herr : (if solutionMismatch st.solution r c d
        && !(getBCell b r c).isInvalid then st.errors + 1 else st.errors)
      = (if getCell sol r c ≠ d ∧ (getBCell b r c).isInvalid = false
         then st.errors + 1 else st.errors) := by
    rw [hmm]
    by_cases hx : getCell sol r c = d
    · simp [hx]
    · cases hinv : (getBCell b r c).isInvalid
      · simp [hx, hinv]
      · simp [hx, hinv]
  simp only [herr]
  split_ifs <;>
    exact ⟨_, rfl,
      by rw [getBCell_setBCell_self hWFB hr hc]; dsimp only; exact hmm,
      by rw [getBCell_setBCell_self hWFB hr hc], rfl⟩

/-- The erase action on a selected, non-given cell fully described: the
cell is cleared (so the board cannot pass the win check) and nothing else
changes. -/
theorem handleNumberInput_erase_state (st : GameState) (b : Board) (r c : Nat)
    (hstatus : st.status = GameStatus.playing)
    (hb : st.board = some b) (hsel : st.selectedCell = some (r, c))
    (hWFB : WFB b) (hr : r < 9) (hc : c < 9)
    (hgiven : (getBCell b r c).isGiven = false) :
    handleNumberInput none st =
      { st with board := some (setBCell b r c
          { getBCell b r c with value := none, isInvalid := false }) } := by
  rw [handleNumberInput_erase_eq st b r c hstatus hb hsel hgiven]
  dsimp only
  split_ifs with hwin
  · exfalso
    have hval := (checkWinG_eq_true_iff _ _).mp hwin r c hr hc
    rw [getBCell_setBCell_self hWFB hr hc] at hval
    exact Option.noConfusion hval
  · rfl

/-- C4: wrong digits into a selected non-given cell set `isInvalid` and
increment `errorCount` by exactly 1 only when the cell was not already
invalid; matching digits clear `isInvalid` and never increment; erasing
never increments, and erasing then re-entering a wrong digit increments
again. -/
theorem enterValue_error_accounting (st : GameState) (b : Board) (sol : Grid)
    (r c : Nat) (hstatus : st.status = GameStatus.playing)
    (hb : st.board = some b) (hsol : st.solution = some sol)
    (hsel : st.selectedCell = some (r, c)) (hWFB : WFB b)
    (hr : r < 9) (hc : c < 9)
    (hgiven : (getBCell b r c).isGiven = false) :
    (∀ d, getCell sol r c ≠ d →
      (handleNumberInput (some d) st).errors =
        (if (getBCell b r c).isInvalid = true then st.errors
         else st.errors + 1) ∧
      ∃ nb, (handleNumberInput (some d) st).board = some nb ∧
        (getBCell nb r c).isInvalid = true) ∧
    (∀ d, getCell sol r c = d →
      (handleNumberInput (some d) st).errors = st.errors ∧
      ∃ nb, (handleNumberInput (some d) st).board = some nb ∧
        (getBCell nb r c).isInvalid = false) ∧
    (handleNumberInput none st).errors = st.errors ∧
    (∀ d, getCell sol r c ≠ d →
      (handleNumberInput (some d) (handleNumberInput none st)).errors
        = st.errors + 1) := by
  refine ⟨?_, ?_, ?_, ?_⟩
  · intro d hne
    obtain ⟨nb, hnb, hinv, _, herrs⟩ :=
      handleNumberInput_digit_spec st b sol r c d hstatus hb hsol hsel hWFB
        hr hc hgiven
    constructor
    · rw [herrs]
      cases hiv : (getBCell b r c).isInvalid
      · simp [hne, hiv]
      · simp [hne, hiv]
    · exact ⟨nb, hnb, by rw [hinv]; simp [hne]⟩
  · intro d heq
    obtain ⟨nb, hnb, hinv, _, herrs⟩ :=
      handleNumberInput_digit_spec st b sol r c d hstatus hb hsol hsel hWFB
        hr hc hgiven
    constructor
    · rw [herrs]
      simp [heq]
    · exact ⟨nb, hnb, by rw [hinv]; simp [heq]⟩
  · rw [handleNumberInput_erase_state st b r c hstatus hb hsel hWFB hr hc hgiven]
  · intro d hne
    rw [handleNumberInput_erase_state st b r c hstatus hb hsel hWFB hr hc hgiven]
    obtain ⟨nb2, hnb2, hinv2, _, herrs2⟩ :=
      handleNumberInput_digit_spec
        { st with board := some (setBCell b r c
            { getBCell b r c with value := none, isInvalid := false }) }
        (setBCell b r c { getBCell b r c with value := none, isInvalid := false })
        sol r c d hstatus rfl hsol hsel (WFB_setBCell hWFB r c _) hr hc
        (by rw [getBCell_setBCell_self hWFB hr hc]; dsimp only; exact hgiven)
    rw [herrs2, if_pos ⟨hne, by rw [getBCell_setBCell_self hWFB hr hc]⟩]

/-- A playing session on the easy board with the empty non-given cell
`(0, 0)` selected; its solution value is `4`. -/
def playState : GameState :=
  { status := GameStatus.playing, difficulty := Difficulty.easy,
    board := some demoBoard, solution := some easySolution,
    selectedCell := some (0, 0), timer := 0, errors := 0 }

theorem enterValue_error_accounting_witness :
    (handleNumberInput (some 9) playState).errors = 1 ∧
    (handleNumberInput (some 9) (handleNumberInput none playState)).errors = 1 := by
  have h := enterValue_error_accounting playState demoBoard easySolution 0 0
    rfl rfl rfl rfl (by decide) (by decide) (by decide) (by decide)
  constructor
  · have h1 := (h.1 9 (by decide)).1
    rw [h1, if_neg (by decide)]
    decide
  · exact h.2.2.2 9 (by decide)

/-- C5: after a value write the session is `solved` exactly when the win
check passes, and the win check passes exactly when every cell is filled
with its solution value; a board with one empty or mismatching cell is
never a win. -/
theorem win_check_exactness (st : GameState) (b : Board) (sol : Grid)
    (r c : Nat) (hstatus : st.status = GameStatus.playing)
    (hb : st.board = some b) (hsol : st.solution = some sol)
    (hsel : st.selectedCell = some (r, c))
    (hgiven : (getBCell b r c).isGiven = false) :
    (∀ num, ∃ nb, (handleNumberInput num st).board = some nb ∧
      ((handleNumberInput num st).status = GameStatus.solved ↔
        checkWinG sol nb = true)) ∧
    (∀ b', checkWinG sol b' = true ↔
      ∀ r' c', r' < 9 → c' < 9 →
        (getBCell b' r' c').value = some (getCell sol r' c')) ∧
    (∀ b' r0 c0, r0 < 9 → c0 < 9 →
      ((getBCell b' r0 c0).value = none ∨
        (getBCell b' r0 c0).value ≠ some (getCell sol r0 c0)) →
      checkWinG sol b' = false) := by
  refine ⟨?_, fun b' => checkWinG_eq_true_iff sol b',
    fun b' r0 c0 h1 h2 h3 => checkWinG_false_of_cell h1 h2 h3⟩
  intro num
  cases num with
  | none =>
    rw [handleNumberInput_erase_eq st b r c hstatus hb hsel hgiven]
    dsimp only
    rw [hsol]
    simp only [Option.getD_some]
    split_ifs <;>
      first
        | exact ⟨_, rfl, iff_of_true rfl (by assumption)⟩
        | exact ⟨_, rfl, iff_of_false
            (by intro hh
                dsimp only at hh
                rw [hstatus] at hh
                exact GameStatus.noConfusion hh)
            (by assumption)⟩
  | some d =>
    rw [handleNumberInput_digit_eq st b r c d hstatus hb hsel hgiven]
    dsimp only
    rw [hsol]
    simp only [Option.getD_some]
    split_ifs <;>
      first
        | exact ⟨_, rfl, iff_of_true rfl (by assumption)⟩
        | exact ⟨_, rfl, iff_of_false
            (by intro hh
                dsimp only at hh
                rw [hstatus] at hh
                exact GameStatus.noConfusion hh)
            (by assumption)⟩

theorem win_check_exactness_witness :
    (∀ num, ∃ nb, (handleNumberInput num playState).board = some nb ∧
      ((handleNumberInput num playState).status = GameStatus.solved ↔
        checkWinG easySolution nb = true)) ∧
    (∀ b', checkWinG easySolution b' = true ↔
      ∀ r' c', r' < 9 → c' < 9 →
        (getBCell b' r' c').value = some (getCell easySolution r' c')) ∧
    (∀ b' r0 c0, r0 < 9 → c0 < 9 →
      ((getBCell b' r0 c0).value = none ∨
        (getBCell b' r0 c0).value ≠ some (getCell easySolution r0 c0)) →
      checkWinG easySolution b' = false) :=
  win_check_exactness playState demoBoard easySolution 0 0 rfl rfl rfl rfl
    (by decide)

/-!
The session invariant: the board and solution are present together, the
board is 9×9 with every `isInvalid` flag exactly tracking a mismatch with
the solution and every given cell holding its solution value, and any
selection is in range.  The invariant holds in every reachable state.
-/

theorem getCell_parseGrid (s : List Char) {r c : Nat} (hr : r < 9) (hc : c < 9) :
    getCell (parseGrid s) r c = charToCellNum (s.getD (9 * r + c) '.') := by
  unfold getCell parseGrid
  rw [List.getD_eq_getElem?_getD, List.getD_eq_getElem?_getD,
    List.getElem?_map, List.getElem?_range hr]
  simp only [Option.map_some', Option.getD_some]
  rw [List.getElem?_map, List.getElem?_range hc]
  simp only [Option.map_some', Option.getD_some]

theorem getBCell_mkPuzzleBoard (s : List Char) {r c : Nat} (hr : r < 9)
    (hc : c < 9) :
    getBCell (mkPuzzleBoard s) r c =
      (if s.getD (9 * r + c) '.' = '.' then emptyCell
       else { value := some (charToCellNum (s.getD (9 * r + c) '.')),
              isGiven := true, isInvalid := false }) := by
  unfold getBCell mkPuzzleBoard
  rw [List.getD_eq_getElem?_getD, List.getD_eq_getElem?_getD,
    List.getElem?_map, List.getElem?_range hr]
  simp only [Option.map_some', Option.getD_some]
  rw [List.getElem?_map, List.getElem?_range hc]
  simp only [Option.map_some', Option.getD_some]

/-- The per-cell invariant: `isInvalid` holds exactly when the cell's value
differs from the solution entry, and given cells carry their solution
value. -/
def CellInv (sol : Grid) (b : Board) : Prop :=
  ∀ r c, r < 9 → c < 9 →
    ((getBCell b r c).isInvalid = true ↔
      ∃ v, (getBCell b r c).value = some v ∧ v ≠ getCell sol r c) ∧
    ((getBCell b r c).isGiven = true →
      (getBCell b r c).value = some (getCell sol r c))

def BoardInv (st : GameState) : Prop :=
  (st.board = none ∧ st.solution = none) ∨
  (∃ b sol, st.board = some b ∧ st.solution = some sol ∧ WFB b ∧ CellInv sol b)

def SessionInv (st : GameState) : Prop :=
  BoardInv st ∧ ∀ r c, st.selectedCell = some (r, c) → r < 9 ∧ c < 9

/-- Definition strings drawn from the alphabet of the puzzle format. -/
def DigitsOrDots (s : List Char) : Prop :=
  ∀ i, i < 81 → s.getD i '.' = '.' ∨
    (49 ≤ (s.getD i '.').toNat ∧ (s.getD i '.').toNat ≤ 57)

instance : DecidablePred DigitsOrDots := fun s => by
  unfold DigitsOrDots; infer_instance

theorem cellInv_mkPuzzleBoard {s : List Char} (hs : DigitsOrDots s) {sol : Grid}
    (hx : ExtendsG (parseGrid s) sol) : CellInv sol (mkPuzzleBoard s) := by
  intro r c hr hc
  rw [getBCell_mkPuzzleBoard s hr hc]
  by_cases hdot : s.getD (9 * r + c) '.' = '.'
  · rw [if_pos hdot]
    refine ⟨?_, ?_⟩
    · simp [emptyCell]
    · intro hg
      simp [emptyCell] at hg
  · rw [if_neg hdot]
    have hdig : 49 ≤ (s.getD (9 * r + c) '.').toNat ∧
        (s.getD (9 * r + c) '.').toNat ≤ 57 :=
      ((hs (9 * r + c) (by omega)).resolve_left hdot)
    have hnz : charToCellNum (s.getD (9 * r + c) '.') ≠ 0 := by
      unfold charToCellNum
      rw [if_neg hdot]
      omega
    have hcell : getCell (parseGrid s) r c
        = charToCellNum (s.getD (9 * r + c) '.') := getCell_parseGrid s hr hc
    have hsol : getCell sol r c = charToCellNum (s.getD (9 * r + c) '.') := by
      rw [hx r c hr hc (by rw [hcell]; exact hnz), hcell]
    refine ⟨?_, ?_⟩
    · constructor
      · intro hcon
        simp at hcon
      · rintro ⟨v, hv, hne⟩
        simp only [Option.some.injEq] at hv
        subst hv
        rw [hsol] at hne
        exact absurd rfl hne
    · intro _
      rw [hsol]

theorem sessionInv_startGameStr (s : List Char) (hs : DigitsOrDots s)
    (d : Difficulty) (st : GameState) (hst : SessionInv st) :
    SessionInv (startGameStr s d st) := by
  unfold startGameStr
  rcases hgen : generatePuzzleStr s with msg | ⟨puzzle, sol⟩
  · exact ⟨hst.1, hst.2⟩
  · have hparse : (solve (parseGrid s)).1 = true ∧
        puzzle = mkPuzzleBoard s ∧ sol = (solve (parseGrid s)).2 := by
      unfold generatePuzzleStr at hgen
      rcases hres : solve (parseGrid s) with ⟨ok, g2⟩
      rw [hres] at hgen
      cases ok with
      | false => exact absurd hgen (by simp)
      | true =>
        simp only [Except.ok.injEq, Prod.mk.injEq] at hgen
        exact ⟨rfl, hgen.1.symm, by rw [← hgen.2]⟩
    obtain ⟨htrue, hpz, hsol⟩ := hparse
    subst hpz
    subst hsol
    obtain ⟨_, hxr, _, _, _⟩ := solveFuel_sound 82 _ (WF_parseGrid s) htrue
    constructor
    · exact Or.inr ⟨mkPuzzleBoard s, (solve (parseGrid s)).2, rfl, rfl,
        WFB_mkPuzzleBoard s, cellInv_mkPuzzleBoard hs hxr⟩
    · intro r c hcon
      exact absurd hcon (by simp)

theorem findFirstIdx_some_spec (p : Cell → Bool) :
    ∀ (l : List Cell) (i : Nat), findFirstIdx p l = some i →
      i < l.length ∧ ∃ x, l[i]? = some x ∧ p x = true := by
  intro l
  induction l with
  | nil =>
    intro i h
    rw [findFirstIdx.eq_def] at h
    exact absurd h (by simp)
  | cons a as ih =>
    intro i h
    rw [findFirstIdx.eq_def] at h
    dsimp only at h
    by_cases hp : p a = true
    · rw [if_pos hp] at h
      injection h with h
      subst h
      exact ⟨by simp, a, by simp, hp⟩
    · rw [if_neg hp] at h
      rcases hrec : findFirstIdx p as with _ | j
      · rw [hrec] at h
        simp at h
      · rw [hrec] at h
        simp only [Option.map_some', Option.some.injEq] at h
        subst h
        obtain ⟨hlen, x, hx, hpx⟩ := ih j hrec
        exact ⟨by simpa using hlen, x, by simpa using hx, hpx⟩

theorem flatten_getElem? (b : Board) (hb : ∀ row ∈ b, row.length = 9) :
    ∀ i, i < 9 * b.length →
      b.flatten[i]? = some (getBCell b (i / 9) (i % 9)) := by
  induction b with
  | nil =>
    intro i hi
    simp at hi
  | cons row rest ih =>
    intro i hi
    have hrow : row.length = 9 := hb row (List.mem_cons_self row rest)
    rw [List.flatten_cons]
    by_cases hi9 : i < 9
    · rw [List.getElem?_append_left (by omega)]
      rw [(by omega : i / 9 = 0), (by omega : i % 9 = i)]
      unfold getBCell
      simp only [List.getD_cons_zero]
      rw [List.getElem?_eq_getElem (by omega), List.getD_eq_getElem?_getD,
        List.getElem?_eq_getElem (by omega), Option.getD_some]
    · rw [List.getElem?_append_right (by omega)]
      have hrec := ih (fun rr hh => hb rr (List.mem_cons_of_mem row hh))
        (i - row.length) (by simp only [List.length_cons] at hi; omega)
      rw [hrec]
      have hbc : getBCell (row :: rest) (i / 9) (i % 9)
          = getBCell rest ((i - row.length) / 9) ((i - row.length) % 9) := by
        have hdiv : i / 9 = (i - row.length) / 9 + 1 := by omega
        rw [hdiv]
        unfold getBCell
        rw [List.getD_cons_succ, (by omega : (i - row.length) % 9 = i % 9)]
      rw [hbc]

theorem flatten_length (b : Board) (hWFB : WFB b) : b.flatten.length = 81 := by
  have h : ∀ (l : Board), (∀ row ∈ l, row.length = 9) →
      l.flatten.length = 9 * l.length := by
    intro l
    induction l with
    | nil => intro _; simp
    | cons row rest ih =>
      intro hl
      rw [List.flatten_cons, List.length_append,
        ih (fun rr hh => hl rr (List.mem_cons_of_mem row hh)),
        hl row (List.mem_cons_self row rest)]
      simp only [List.length_cons]
      ring
  rw [h b hWFB.2, hWFB.1]

theorem firstEmptyIdx_spec {b : Board} (hWFB : WFB b) {i : Nat}
    (h : firstEmptyIdx b = some i) :
    i < 81 ∧ (getBCell b (i / 9) (i % 9)).value = none ∧
      (getBCell b (i / 9) (i % 9)).isGiven = false := by
  obtain ⟨hlen, x, hx, hpx⟩ := findFirstIdx_some_spec _ _ _ h
  rw [flatten_length b hWFB] at hlen
  rw [flatten_getElem? b hWFB.2 i (by rw [hWFB.1]; omega)] at hx
  injection hx with hx
  subst hx
  simp only [Bool.and_eq_true, beq_iff_eq, Bool.not_eq_eq_eq_not,
    Bool.not_true] at hpx
  exact ⟨hlen, hpx.1, by rw [hpx.2]⟩

theorem cellInv_setBCell {sol : Grid} {b : Board} (hWFB : WFB b)
    (hinv : CellInv sol b) {r c : Nat} (hr : r < 9) (hc : c < 9)
    {newCell : Cell}
    (h1 : newCell.isInvalid = true ↔
      ∃ v, newCell.value = some v ∧ v ≠ getCell sol r c)
    (h2 : newCell.isGiven = true → newCell.value = some (getCell sol r c)) :
    CellInv sol (setBCell b r c newCell) := by
  intro r' c' hr' hc'
  by_cases he : r = r' ∧ c = c'
  · obtain ⟨rfl, rfl⟩ := he
    rw [getBCell_setBCell_self hWFB hr hc]
    exact ⟨h1, h2⟩
  · rw [getBCell_setBCell_of_ne (by tauto)]
    exact hinv r' c' hr' hc'

theorem digitCell_isInvalid_iff (sol : Grid) (r c d : Nat) :
    solutionMismatch (some sol) r c d = true ↔
      ∃ v, (some d : Option Nat) = some v ∧ v ≠ getCell sol r c := by
  rw [solutionMismatch_some]
  constructor
  · intro h
    simp only [Bool.not_eq_eq_eq_not, Bool.not_true, beq_eq_false_iff_ne,
      ne_eq] at h
    exact ⟨d, rfl, fun hh => h hh.symm⟩
  · rintro ⟨v, hv, hne⟩
    simp only [Option.some.injEq] at hv
    subst hv
    simp only [Bool.not_eq_eq_eq_not, Bool.not_true, beq_eq_false_iff_ne,
      ne_eq]
    exact fun hh => hne hh.symm

theorem sessionInv_handleNumberInput (num : Option Nat) (st : GameState)
    (hst : SessionInv st) : SessionInv (handleNumberInput num st) := by
  obtain ⟨hbi, hselb⟩ := hst
  unfold handleNumberInput
  by_cases hstatus : st.status ≠ GameStatus.playing
  · rw [if_pos hstatus]
    exact ⟨hbi, hselb⟩
  · rw [if_neg hstatus]
    rcases hb : st.board with _ | b
    · exact ⟨hbi, hselb⟩
    · dsimp only
      have hbs : ∃ sol, st.solution = some sol ∧ WFB b ∧ CellInv sol b := by
        rcases hbi with ⟨hb0, _⟩ | ⟨b', sol, hb', hsol', hWFB, hcinv⟩
        · rw [hb0] at hb
          exact absurd hb (by simp)
        · rw [hb'] at hb
          injection hb with hb
          subst hb
          exact ⟨sol, hsol', hWFB, hcinv⟩
      obtain ⟨sol, hsol, hWFB, hcinv⟩ := hbs
      rcases hselc : st.selectedCell with _ | ⟨row, col⟩
      · dsimp only
        rcases num with _ | d
        · exact ⟨hbi, hselb⟩
        · dsimp only
          rcases hfe : firstEmptyIdx b with _ | i
          · exact ⟨hbi, hselb⟩
          · dsimp only
            obtain ⟨hi81, hvnone, hgfalse⟩ := firstEmptyIdx_spec hWFB hfe
            have hdr : i / 9 < 9 := by omega
            have hdc : i % 9 < 9 := by omega
            rw [hsol]
            split_ifs with hwin <;>
              refine ⟨Or.inr ⟨_, sol, rfl, rfl,
                  WFB_setBCell hWFB (i / 9) (i % 9) _,
                  cellInv_setBCell hWFB hcinv hdr hdc ?_ ?_⟩, ?_⟩ <;>
                first
                  | exact digitCell_isInvalid_iff sol (i / 9) (i % 9) d
                  | (intro hgi
                     dsimp only at hgi
                     rw [hgfalse] at hgi
                     exact Bool.noConfusion hgi)
                  | (intro r c hrc
                     dsimp only at hrc
                     simp only [Option.some.injEq, Prod.mk.injEq] at hrc
                     exact ⟨hrc.1 ▸ hdr, hrc.2 ▸ hdc⟩)
      · dsimp only
        obtain ⟨hrow, hcol⟩ := hselb row col hselc
        by_cases hgiven : (getBCell b row col).isGiven = true
        · rw [if_pos hgiven]
          exact ⟨hbi, hselb⟩
        · rw [if_neg hgiven]
          have hgf : (getBCell b row col).isGiven = false := by
            cases hx : (getBCell b row col).isGiven
            · rfl
            · exact absurd hx hgiven
          rcases num with _ | d
          · dsimp only
            split_ifs with hwin <;>
              refine ⟨Or.inr ⟨_, sol, rfl, hsol,
                  WFB_setBCell hWFB row col _,
                  cellInv_setBCell hWFB hcinv hrow hcol ?_ ?_⟩, ?_⟩ <;>
                first
                  | (constructor
                     · intro hcon
                       exact Bool.noConfusion hcon
                     · rintro ⟨v, hv, _⟩
                       exact Option.noConfusion hv)
                  | (intro hgi
                     dsimp only at hgi
                     rw [hgf] at hgi
                     exact Bool.noConfusion hgi)
                  | (intro r c hrc
                     dsimp only at hrc
                     simp only [Option.some.injEq, Prod.mk.injEq] at hrc
                     exact ⟨hrc.1 ▸ hrow, hrc.2 ▸ hcol⟩)
          · dsimp only
            rw [hsol]
            split_ifs with hwin <;>
              refine ⟨Or.inr ⟨_, sol, rfl, rfl,
                  WFB_setBCell hWFB row col _,
                  cellInv_setBCell hWFB hcinv hrow hcol ?_ ?_⟩, ?_⟩ <;>
                first
                  | exact digitCell_isInvalid_iff sol row col d
                  | (intro hgi
                     dsimp only at hgi
                     rw [hgf] at hgi
                     exact Bool.noConfusion hgi)
                  | (intro r c hrc
                     dsimp only at hrc
                     simp only [Option.some.injEq, Prod.mk.injEq] at hrc
                     exact ⟨hrc.1 ▸ hrow, hrc.2 ▸ hcol⟩)

theorem boardInv_same {st st' : GameState} (hb : st'.board = st.board)
    (hs : st'.solution = st.solution) (h : BoardInv st) : BoardInv st' := by
  rcases h with ⟨h1, h2⟩ | ⟨b, sol, hb', hsol', hWFB, hcinv⟩
  · exact Or.inl ⟨by rw [hb, h1], by rw [hs, h2]⟩
  · exact Or.inr ⟨b, sol, by rw [hb, hb'], by rw [hs, hsol'], hWFB, hcinv⟩

theorem sessionInv_selectCell (p : Nat × Nat) (h1 : p.1 < 9) (h2 : p.2 < 9)
    (st : GameState) (hst : SessionInv st) : SessionInv (selectCell p st) := by
  refine ⟨boardInv_same rfl rfl hst.1, ?_⟩
  intro r c hrc
  dsimp only [selectCell] at hrc
  injection hrc with hrc
  subst hrc
  exact ⟨h1, h2⟩

theorem sessionInv_moveSelection (k : ArrowKey) (st : GameState)
    (hst : SessionInv st) : SessionInv (moveSelection k st) := by
  obtain ⟨hbi, hselb⟩ := hst
  unfold moveSelection
  by_cases hstatus : st.status ≠ GameStatus.playing
  · rw [if_pos hstatus]
    exact ⟨hbi, hselb⟩
  · rw [if_neg hstatus]
    rcases hselc : st.selectedCell with _ | ⟨row, col⟩
    · exact ⟨hbi, hselb⟩
    · dsimp only
      obtain ⟨hrow, hcol⟩ := hselb row col hselc
      refine ⟨boardInv_same rfl rfl hbi, ?_⟩
      intro r c hrc
      dsimp only at hrc
      cases k <;>
        (simp only [Option.some.injEq, Prod.mk.injEq] at hrc
         obtain ⟨e1, e2⟩ := hrc
         omega)

theorem sessionInv_returnToMenu (st : GameState) (hst : SessionInv st) :
    SessionInv (returnToMenu st) :=
  ⟨boardInv_same rfl rfl hst.1, fun r c h => hst.2 r c h⟩

theorem sessionInv_tickTimer (st : GameState) (hst : SessionInv st) :
    SessionInv (tickTimer st) := by
  unfold tickTimer
  split_ifs
  · exact ⟨boardInv_same rfl rfl hst.1, fun r c h => hst.2 r c h⟩
  · exact hst

/-- The controller operations as a step relation on session states:
starting a game, a number-pad or keyboard value entry (or erase), a cell
click (always in range by construction of the renderer), an arrow-key
move, returning to the menu, and a timer tick. -/
inductive Step : GameState → GameState → Prop
  | start (st : GameState) (d : Difficulty) : Step st (startGame d st)
  | input (st : GameState) (num : Option Nat) : Step st (handleNumberInput num st)
  | select (st : GameState) (p : Nat × Nat) (h1 : p.1 < 9) (h2 : p.2 < 9) :
      Step st (selectCell p st)
  | move (st : GameState) (k : ArrowKey) : Step st (moveSelection k st)
  | menu (st : GameState) : Step st (returnToMenu st)
  | clock (st : GameState) : Step st (tickTimer st)

/-- A session state reachable from the initial (menu) state by controller
operations. -/
def Reachable (st : GameState) : Prop :=
  Relation.ReflTransGen Step initialState st

theorem sessionInv_initial : SessionInv initialState := by
  refine ⟨Or.inl ⟨rfl, rfl⟩, ?_⟩
  intro r c h
  exact absurd h (by simp [initialState])

theorem sessionInv_step {s1 s2 : GameState} (h : Step s1 s2)
    (hs : SessionInv s1) : SessionInv s2 := by
  cases h with
  | start d =>
    exact sessionInv_startGameStr (PUZZLES d).toList
      (by cases d <;> decide) d s1 hs
  | input num => exact sessionInv_handleNumberInput num s1 hs
  | select p h1 h2 => exact sessionInv_selectCell p h1 h2 s1 hs
  | move k => exact sessionInv_moveSelection k s1 hs
  | menu => exact sessionInv_returnToMenu s1 hs
  | clock => exact sessionInv_tickTimer s1 hs

theorem sessionInv_reachable {st : GameState} (h : Reachable st) :
    SessionInv st := by
  induction h with
  | refl => exact sessionInv_initial
  | tail _ hstep ih => exact sessionInv_step hstep ih

/-- C7: in every reachable session state the `isInvalid` flag is never
stale: it holds exactly when the cell's value differs from the solution
entry; in particular empty cells and given cells always have
`isInvalid = false`.  Preservation under every controller operation is
`sessionInv_step`. -/
theorem isInvalid_never_stale (st : GameState) (hreach : Reachable st)
    (b : Board) (sol : Grid) (hb : st.board = some b)
    (hsol : st.solution = some sol) :
    ∀ r c, r < 9 → c < 9 →
      ((getBCell b r c).isInvalid = true ↔
        ∃ v, (getBCell b r c).value = some v ∧ v ≠ getCell sol r c) ∧
      ((getBCell b r c).value = none → (getBCell b r c).isInvalid = false) ∧
      ((getBCell b r c).isGiven = true → (getBCell b r c).isInvalid = false) := by
  obtain ⟨hbi, _⟩ := sessionInv_reachable hreach
  rcases hbi with ⟨h1, _⟩ | ⟨b', sol', hb', hsol', hWFB, hcinv⟩
  · rw [h1] at hb
    exact absurd hb (by simp)
  · rw [hb'] at hb
    injection hb with hb
    subst hb
    rw [hsol'] at hsol
    injection hsol with hsol
    subst hsol
    intro r c hr hc
    obtain ⟨hiff, hgiv⟩ := hcinv r c hr hc
    refine ⟨hiff, ?_, ?_⟩
    · intro hnone
      cases hx : (getBCell b' r c).isInvalid
      · rfl
      · obtain ⟨v, hv, _⟩ := hiff.mp hx
        rw [hnone] at hv
        exact Option.noConfusion hv
    · intro hgi
      cases hx : (getBCell b' r c).isInvalid
      · rfl
      · obtain ⟨v, hv, hne⟩ := hiff.mp hx
        rw [hgiv hgi] at hv
        injection hv with hv
        exact absurd hv.symm hne

theorem startGameStr_ok_state (s : List Char) (d : Difficulty) (st : GameState)
    {pz : Board} {sol : Grid} (h : generatePuzzleStr s = Except.ok (pz, sol)) :
    startGameStr s d st = { st with
        difficulty := d,
        board := some pz,
        solution := some sol,
        selectedCell := none,
        errors := 0,
        timer := 0,
        status := GameStatus.playing } := by
  unfold startGameStr
  rw [h]

theorem startGame_easy_state : startGame Difficulty.easy initialState =
    { initialState with
        difficulty := Difficulty.easy,
        board := some (mkPuzzleBoard easyPuzzle.toList),
        solution := some (solve (parseGrid easyPuzzle.toList)).2,
        selectedCell := none,
        errors := 0,
        timer := 0,
        status := GameStatus.playing } :=
  startGameStr_ok_state easyPuzzle.toList Difficulty.easy initialState
    (generatePuzzleStr_ok_of_solveTrue easy_solve_true)

theorem isInvalid_never_stale_witness :
    ((getBCell (mkPuzzleBoard easyPuzzle.toList) 0 2).isInvalid = true ↔
      ∃ v, (getBCell (mkPuzzleBoard easyPuzzle.toList) 0 2).value = some v ∧
        v ≠ getCell (solve (parseGrid easyPuzzle.toList)).2 0 2) ∧
    ((getBCell (mkPuzzleBoard easyPuzzle.toList) 0 2).value = none →
      (getBCell (mkPuzzleBoard easyPuzzle.toList) 0 2).isInvalid = false) ∧
    ((getBCell (mkPuzzleBoard easyPuzzle.toList) 0 2).isGiven = true →
      (getBCell (mkPuzzleBoard easyPuzzle.toList) 0 2).isInvalid = false) :=
  isInvalid_never_stale (startGame Difficulty.easy initialState)
    (Relation.ReflTransGen.single (Step.start initialState Difficulty.easy))
    (mkPuzzleBoard easyPuzzle.toList) (solve (parseGrid easyPuzzle.toList)).2
    (by rw [startGame_easy_state]) (by rw [startGame_easy_state])
    0 2 (by decide) (by decide)

/-!
The search is deterministic: the scanned cell is the row-major-first empty
cell of minimal candidate count, and the whole solver coincides with a
version written directly from that specification.
-/

/-- Modelled from the spec's cell-selection rule: scan the empty cells in
row-major order and select the first one whose candidate count is less
than or equal to every empty cell's candidate count (the first cell
attaining the minimum; ties therefore go to the earlier cell). -/
def specFirstMinCell (g : Grid) : Option (Nat × Nat) :=
  ((((List.range 81).filter fun i => getCell g (i / 9) (i % 9) == 0).find?
      fun i =>
        ((List.range 81).filter fun j => getCell g (j / 9) (j % 9) == 0).all
          fun j =>
            decide (candCount g (i / 9) (i % 9) ≤ candCount g (j / 9) (j % 9))).map
    fun i => (i / 9, i % 9))

/-- Modelled from the spec's candidate loop: try each valid candidate in
ascending order: place it, recurse, and if the recursion fails revert the
cell to empty and try the next candidate. -/
def specTryCandidates (slv : Grid → Bool × Grid) (r c : Nat) :
    Grid → List Nat → Bool × Grid
  | board, [] => (false, board)
  | board, n :: rest =>
    if isValid board r c n then
      match slv (setCell board r c n) with
      | (true, board2) => (true, board2)
      | (false, board2) => specTryCandidates slv r c (setCell board2 r c 0) rest
    else specTryCandidates slv r c board rest

/-- Modelled from the spec's search: select the MRV cell (ties row-major
first), succeed when no empty cell remains, and try candidates `1..9` in
ascending order. -/
def specSolveFuel : Nat → Grid → Bool × Grid
  | 0, board => (false, board)
  | fuel + 1, board =>
    match specFirstMinCell board with
    | none => (true, board)
    | some (r, c) =>
      specTryCandidates (fun b => specSolveFuel fuel b) r c board
        [1, 2, 3, 4, 5, 6, 7, 8, 9]

theorem find?_filter_range_first (n i0 : Nat) (q p : Nat → Bool)
    (hi0 : i0 < n) (hq : q i0 = true) (hp : p i0 = true)
    (hbefore : ∀ j, j < i0 → q j = true → p j = false) :
    ((List.range n).filter q).find? p = some i0 := by
  induction n with
  | zero => omega
  | succ n ih =>
    rw [List.range_succ, List.filter_append, List.find?_append]
    by_cases hin : i0 < n
    · rw [ih hin]
      rfl
    · have hi0n : i0 = n := by omega
      subst hi0n
      have h1 : ((List.range i0).filter q).find? p = none := by
        rw [List.find?_eq_none]
        intro x hx
        simp only [List.mem_filter, List.mem_range] at hx
        rw [hbefore x hx.1 hx.2]
        simp
      rw [h1]
      simp [List.filter_cons, hq, hp]

theorem findBestCell_eq_specFirstMinCell (g : Grid) :
    findBestCell g = specFirstMinCell g := by
  rcases fbFold_spec g 81 with ⟨hacc, hall⟩ | ⟨i0, hi0, hemp, hacc, hmin, htie⟩
  · unfold findBestCell specFirstMinCell
    rw [hacc]
    have hfil : ((List.range 81).filter fun i =>
        getCell g (i / 9) (i % 9) == 0) = [] := by
      rw [List.filter_eq_nil_iff]
      intro a ha
      simp only [List.mem_range] at ha
      simp only [beq_iff_eq]
      exact hall a ha
    rw [hfil]
    rfl
  · unfold findBestCell specFirstMinCell
    rw [hacc]
    rw [find?_filter_range_first 81 i0 _ _ hi0 (by simp [hemp]) ?_ ?_]
    · rfl
    · rw [List.all_eq_true]
      intro j hj
      simp only [List.mem_filter, List.mem_range, beq_iff_eq] at hj
      simp only [decide_eq_true_eq]
      exact hmin j hj.1 hj.2
    · intro j hj hqj
      simp only [beq_iff_eq] at hqj
      cases hpj : ((List.range 81).filter fun k =>
          getCell g (k / 9) (k % 9) == 0).all fun k =>
            decide (candCount g (j / 9) (j % 9) ≤ candCount g (k / 9) (k % 9))
      · rfl
      · exfalso
        have hmem : i0 ∈ (List.range 81).filter fun k =>
            getCell g (k / 9) (k % 9) == 0 := by
          simp only [List.mem_filter, List.mem_range, beq_iff_eq]
          exact ⟨hi0, hemp⟩
        have hle := List.all_eq_true.mp hpj i0 hmem
        simp only [decide_eq_true_eq] at hle
        have hlt := htie j hj hqj
        omega

theorem specTry_eq_tryNums (slv1 slv2 : Grid → Bool × Grid)
    (h : ∀ b, slv1 b = slv2 b) (r c : Nat) :
    ∀ l g, specTryCandidates slv1 r c g l = tryNums slv2 r c g l := by
  intro l
  induction l with
  | nil => intro g; rfl
  | cons n rest ih =>
    intro g
    rw [specTryCandidates, tryNums]
    by_cases hv : isValid g r c n = true
    · rw [if_pos hv, if_pos hv, h (setCell g r c n)]
      rcases hres : slv2 (setCell g r c n) with ⟨ok, b2⟩
      cases ok
      · exact ih _
      · rfl
    · rw [if_neg hv, if_neg hv]
      exact ih g

theorem solveFuel_eq_specSolveFuel : ∀ (fuel : Nat) (g : Grid),
    solveFuel fuel g = specSolveFuel fuel g := by
  intro fuel
  induction fuel with
  | zero => intro g; rfl
  | succ fuel ih =>
    intro g
    rw [solveFuel, specSolveFuel, ← findBestCell_eq_specFirstMinCell g]
    rcases hfb : findBestCell g with _ | ⟨r, c⟩
    · rfl
    · dsimp only
      exact (specTry_eq_tryNums _ _ (fun b => (ih b).symm) r c _ g).symm

/-- C2: the search is deterministic: the solver's cell choice is exactly
the row-major-first empty cell of minimal candidate count (so the whole
solver equals its specification twin built on that rule with ascending
candidates `1..9` and revert-on-failure), and the chosen cell is empty,
of minimal candidate count, with every strictly earlier empty cell in
row-major order having a strictly larger count. -/
theorem solver_search_deterministic :
    (∀ g, findBestCell g = specFirstMinCell g) ∧
    (∀ fuel g, solveFuel fuel g = specSolveFuel fuel g) ∧
    (∀ g r c, findBestCell g = some (r, c) →
      r < 9 ∧ c < 9 ∧ getCell g r c = 0 ∧
      (∀ r' c', r' < 9 → c' < 9 → getCell g r' c' = 0 →
        candCount g r c ≤ candCount g r' c') ∧
      (∀ r' c', r' < 9 → c' < 9 → getCell g r' c' = 0 →
        9 * r' + c' < 9 * r + c → candCount g r c < candCount g r' c')) :=
  ⟨findBestCell_eq_specFirstMinCell, solveFuel_eq_specSolveFuel,
   fun _ _ _ h => findBestCell_some h⟩

/-- The easy solution grid with the single cell `(4, 5)` blanked; the
MRV scan must pick that cell. -/
def oneHoleGrid : Grid :=
  [[4, 8, 3, 9, 2, 1, 6, 5, 7],
   [9, 6, 7, 3, 4, 5, 8, 2, 1],
   [2, 5, 1, 8, 7, 6, 4, 9, 3],
   [5, 4, 8, 1, 3, 2, 9, 7, 6],
   [7, 2, 9, 5, 6, 0, 1, 3, 8],
   [1, 3, 6, 7, 9, 8, 2, 4, 5],
   [3, 7, 2, 6, 8, 9, 5, 1, 4],
   [8, 1, 4, 2, 5, 3, 7, 6, 9],
   [6, 9, 5, 4, 1, 7, 3, 8, 2]]

theorem solver_search_deterministic_witness :
    findBestCell oneHoleGrid = some (4, 5) ∧
    (4 < 9 ∧ 5 < 9 ∧ getCell oneHoleGrid 4 5 = 0 ∧
      (∀ r' c', r' < 9 → c' < 9 → getCell oneHoleGrid r' c' = 0 →
        candCount oneHoleGrid 4 5 ≤ candCount oneHoleGrid r' c') ∧
      (∀ r' c', r' < 9 → c' < 9 → getCell oneHoleGrid r' c' = 0 →
        9 * r' + c' < 9 * 4 + 5 →
        candCount oneHoleGrid 4 5 < candCount oneHoleGrid r' c')) := by
  have hfb : findBestCell oneHoleGrid = some (4, 5) := by decide
  exact ⟨hfb, solver_search_deterministic.2.2 oneHoleGrid 4 5 hfb⟩
